import Mathlib

/-!
Verification of the go-libp2p resource manager core (rcmgr) against its
natural-language specification.  The definitions below are a shallow
embedding of the Go sources: `resources` and `ResourceScope` from
src/scope.go, the limit record from the repository's `BaseLimit`
(src/unnamed/part_001), the allowlist from src/allowlist.go, and the
re-parenting operations of connection and stream scopes from
src/unnamed/part_017.  Machine integers are modelled as `Int` with an
explicit 64-bit wrap where the source checks for overflow.
-/

namespace Rcmgr

/-- Direction of a stream or connection (network.Direction). -/
inductive Direction where
  | inbound
  | outbound
deriving DecidableEq, Repr

/-- Error taxonomy of the scope operations.  `memoryOverflow` and
`limitExceeded` both wrap the Go sentinel `ErrResourceLimitExceeded`
(they differ only in message); `scopeClosed` is `ErrResourceScopeClosed`;
`alreadyAttached` and `notAttached` are the plain errors returned by the
re-parenting operations of part_017. -/
inductive Err where
  | scopeClosed
  | memoryOverflow
  | limitExceeded
  | alreadyAttached
  | notAttached
deriving DecidableEq, Repr

instance {ε α : Type} [DecidableEq ε] [DecidableEq α] : DecidableEq (Except ε α) :=
  fun x y =>
    match x, y with
    | .error a, .error b =>
      if h : a = b then .isTrue (by rw [h])
      else .isFalse (by intro hh; cases hh; exact h rfl)
    | .error _, .ok _ => .isFalse (by intro hh; cases hh)
    | .ok _, .error _ => .isFalse (by intro hh; cases hh)
    | .ok a, .ok b =>
      if h : a = b then .isTrue (by rw [h])
      else .isFalse (by intro hh; cases hh; exact h rfl)

/-- errors.Is(err, network.ErrResourceLimitExceeded): both the overflow
message and the cap message wrap the same sentinel. -/
def Err.isLimitExceeded : Err → Bool
  | .memoryOverflow => true
  | .limitExceeded => true
  | _ => false

/-- The limit record.  Field set of `BaseLimit` in src/unnamed/part_001
(the snapshot that also declares total caps); the accessors used by
src/scope.go read only the per-direction fields, exactly as the
`Limit` interface of src/limit.go exposes. -/
structure BaseLimit where
  streams : Int
  streamsInbound : Int
  streamsOutbound : Int
  conns : Int
  connsInbound : Int
  connsOutbound : Int
  fd : Int
  memory : Int
deriving DecidableEq, Repr

/-- BaseLimit.GetStreamLimit (src/limit.go). -/
def BaseLimit.getStreamLimit (l : BaseLimit) (dir : Direction) : Int :=
  match dir with
  | .inbound => l.streamsInbound
  | .outbound => l.streamsOutbound

/-- BaseLimit.GetStreamTotalLimit (src/unnamed/part_001). -/
def BaseLimit.getStreamTotalLimit (l : BaseLimit) : Int :=
  l.streams

/-- BaseLimit.GetConnLimit (src/limit.go). -/
def BaseLimit.getConnLimit (l : BaseLimit) (dir : Direction) : Int :=
  match dir with
  | .inbound => l.connsInbound
  | .outbound => l.connsOutbound

/-- BaseLimit.GetConnTotalLimit (src/unnamed/part_001). -/
def BaseLimit.getConnTotalLimit (l : BaseLimit) : Int :=
  l.conns

/-- BaseLimit.GetFDLimit (src/limit.go). -/
def BaseLimit.getFDLimit (l : BaseLimit) : Int :=
  l.fd

/-- BaseLimit.GetMemoryLimit (src/limit.go). -/
def BaseLimit.getMemoryLimit (l : BaseLimit) : Int :=
  l.memory

/-- network.ScopeStat. -/
structure ScopeStat where
  memory : Int
  numStreamsInbound : Int
  numStreamsOutbound : Int
  numConnsInbound : Int
  numConnsOutbound : Int
  numFD : Int
deriving DecidableEq, Repr

/-- The all-zero stat. -/
def zeroStat : ScopeStat :=
  ⟨0, 0, 0, 0, 0, 0⟩

/-- The `resources` record of src/scope.go: current usage counters plus
the limit they are checked against. -/
structure Resources where
  limit : BaseLimit
  nconnsIn : Int
  nconnsOut : Int
  nstreamsIn : Int
  nstreamsOut : Int
  nfd : Int
  memory : Int
deriving DecidableEq, Repr

/-- newResources (src/scope.go:43). -/
def newResources (l : BaseLimit) : Resources :=
  { limit := l, nconnsIn := 0, nconnsOut := 0, nstreamsIn := 0
    nstreamsOut := 0, nfd := 0, memory := 0 }

/-- Two's-complement wrap of an integer to the int64 range, used to model
the Go computation `newmem := rc.memory + rsvp` on int64. -/
def wrap64 (x : Int) : Int :=
  (x + 2 ^ 63) % 2 ^ 64 - 2 ^ 63

/-- resources.checkMemory (src/scope.go:67-80).  The first branch is the
overflow check (`newmem < rc.memory`), which also rejects every negative
reservation; the second is the cap check. -/
def Resources.checkMemory (rc : Resources) (rsvp : Int) : Except Err Unit :=
  let newmem := wrap64 (rc.memory + rsvp)
  if newmem < rc.memory then
    .error .memoryOverflow
  else if newmem > rc.limit.getMemoryLimit then
    .error .limitExceeded
  else
    .ok ()

/-- resources.reserveMemory (src/scope.go:82-89).  The Go commit
`rc.memory += size` coincides with the un-wrapped sum whenever
`checkMemory` succeeded on in-range values, which is how it is written
here. -/
def Resources.reserveMemory (rc : Resources) (size : Int) : Except Err Resources :=
  match rc.checkMemory size with
  | .error e => .error e
  | .ok _ => .ok { rc with memory := rc.memory + size }

/-- resources.releaseMemory (src/scope.go:91-98).  The source asserts
(panics) when the result would be negative; the subtraction itself is
modelled, the assertion is an invariant of reachable states. -/
def Resources.releaseMemory (rc : Resources) (size : Int) : Resources :=
  { rc with memory := rc.memory - size }

/-- resources.addStreams (src/scope.go:107-118).  Note: only the
per-direction caps are checked, and each only when the corresponding
count is positive.  No total-stream cap is consulted. -/
def Resources.addStreams (rc : Resources) (incount outcount : Int) : Except Err Resources :=
  if incount > 0 ∧ rc.nstreamsIn + incount > rc.limit.getStreamLimit .inbound then
    .error .limitExceeded
  else if outcount > 0 ∧ rc.nstreamsOut + outcount > rc.limit.getStreamLimit .outbound then
    .error .limitExceeded
  else
    .ok { rc with nstreamsIn := rc.nstreamsIn + incount
                  nstreamsOut := rc.nstreamsOut + outcount }

/-- resources.addStream (src/scope.go:100-105). -/
def Resources.addStream (rc : Resources) (dir : Direction) : Except Err Resources :=
  match dir with
  | .inbound => rc.addStreams 1 0
  | .outbound => rc.addStreams 0 1

/-- resources.removeStreams (src/scope.go:128-135); the negativity panic
is an invariant, the subtraction is the model. -/
def Resources.removeStreams (rc : Resources) (incount outcount : Int) : Resources :=
  { rc with nstreamsIn := rc.nstreamsIn - incount
            nstreamsOut := rc.nstreamsOut - outcount }

/-- resources.removeStream (src/scope.go:120-126). -/
def Resources.removeStream (rc : Resources) (dir : Direction) : Resources :=
  match dir with
  | .inbound => rc.removeStreams 1 0
  | .outbound => rc.removeStreams 0 1

/-- resources.addConns (src/scope.go:144-155). -/
def Resources.addConns (rc : Resources) (incount outcount : Int) : Except Err Resources :=
  if incount > 0 ∧ rc.nconnsIn + incount > rc.limit.getConnLimit .inbound then
    .error .limitExceeded
  else if outcount > 0 ∧ rc.nconnsOut + outcount > rc.limit.getConnLimit .outbound then
    .error .limitExceeded
  else
    .ok { rc with nconnsIn := rc.nconnsIn + incount
                  nconnsOut := rc.nconnsOut + outcount }

/-- resources.addConn (src/scope.go:137-142). -/
def Resources.addConn (rc : Resources) (dir : Direction) : Except Err Resources :=
  match dir with
  | .inbound => rc.addConns 1 0
  | .outbound => rc.addConns 0 1

/-- resources.removeConns (src/scope.go:165-172). -/
def Resources.removeConns (rc : Resources) (incount outcount : Int) : Resources :=
  { rc with nconnsIn := rc.nconnsIn - incount
            nconnsOut := rc.nconnsOut - outcount }

/-- resources.removeConn (src/scope.go:157-163). -/
def Resources.removeConn (rc : Resources) (dir : Direction) : Resources :=
  match dir with
  | .inbound => rc.removeConns 1 0
  | .outbound => rc.removeConns 0 1

/-- resources.addFD (src/scope.go:174-181). -/
def Resources.addFD (rc : Resources) (count : Int) : Except Err Resources :=
  if rc.nfd + count > rc.limit.getFDLimit then
    .error .limitExceeded
  else
    .ok { rc with nfd := rc.nfd + count }

/-- resources.removeFD (src/scope.go:183-189). -/
def Resources.removeFD (rc : Resources) (count : Int) : Resources :=
  { rc with nfd := rc.nfd - count }

/-- resources.stat (src/scope.go:191-200). -/
def Resources.stat (rc : Resources) : ScopeStat :=
  { memory := rc.memory
    numStreamsInbound := rc.nstreamsIn
    numStreamsOutbound := rc.nstreamsOut
    numConnsInbound := rc.nconnsIn
    numConnsOutbound := rc.nconnsOut
    numFD := rc.nfd }

/-- The `ResourceScope` node of src/scope.go:30-38.  `owner` and
`constraints` hold indices into the heap of scopes (`St`), modelling the
Go pointers. -/
structure Scope where
  done : Bool
  refCnt : Int
  rc : Resources
  owner : Option Nat
  constraints : List Nat
deriving DecidableEq, Repr

/-- The heap of scopes; a Go pointer is an index into this list. -/
abbrev St := List Scope

/-- NewResourceScope (src/scope.go:49-57) builds this node (the IncRef
of the constraints is done by the caller-side constructions below). -/
def mkDagScope (l : BaseLimit) (csts : List Nat) : Scope :=
  { done := false, refCnt := 0, rc := newResources l, owner := none, constraints := csts }

/-- NewTxnResourceScope (src/scope.go:59-64). -/
def mkTxnScope (l : BaseLimit) (ownerIdx : Nat) : Scope :=
  { done := false, refCnt := 0, rc := newResources l, owner := some ownerIdx, constraints := [] }

/-- ResourceScope.IncRef (src/scope.go:672-677), as a heap update. -/
def incRef (st : St) (i : Nat) : St :=
  match st[i]? with
  | none => st
  | some s => st.set i { s with refCnt := s.refCnt + 1 }

/-- ResourceScope.DecRef (src/scope.go:679-684), as a heap update. -/
def decRef (st : St) (i : Nat) : St :=
  match st[i]? with
  | none => st
  | some s => st.set i { s with refCnt := s.refCnt - 1 }

/-- Common body of ReserveMemoryForChild / AddStreamForChild /
AddConnForChild / AddFDForChild (src/scope.go:258-267, 335-344, 423-432,
510-519): fail when the child's target scope is done, otherwise apply
the counters-only action `f`.  `none` models a dangling index, which the
Go pointers cannot produce. -/
def stepForChild (f : Resources → Except Err Resources) (st : St) (c : Nat) :
    Option (Except Err St) :=
  match st[c]? with
  | none => none
  | some s =>
    if s.done then some (.error .scopeClosed)
    else
      match f s.rc with
      | .error e => some (.error e)
      | .ok rc' => some (.ok (st.set c { s with rc := rc' }))

/-- Common body of ReleaseMemoryForChild / RemoveStreamForChild /
RemoveConnForChild / RemoveFDForChild (src/scope.go:281-290, 369-378,
456-465, 544-553): no-op when done, otherwise apply the counters-only
release `g`. -/
def releaseForChildG (g : Resources → Resources) (st : St) (c : Nat) : St :=
  match st[c]? with
  | none => st
  | some s => if s.done then st else st.set c { s with rc := g s.rc }

/-- The charging loop shared by reserveMemoryForConstraints /
addStreamForConstraints / addConnForConstraints / addFDForConstraints
(src/scope.go:228-235, 317-324, 405-412, 492-499): charge each
constraint in order, counting the successes, stopping at the first
error. -/
def chargeList (f : Resources → Except Err Resources) (st : St) (csts : List Nat) :
    Option (St × Nat × Option Err) :=
  match csts with
  | [] => some (st, 0, none)
  | c :: rest =>
    match stepForChild f st c with
    | none => none
    | some (.error e) => some (st, 0, some e)
    | some (.ok st1) =>
      match chargeList f st1 rest with
      | none => none
      | some (st2, n, err) => some (st2, n + 1, err)

/-- The compensating-release loop over `constraints[:reserved]`
(src/scope.go:237-242 and its stream/conn/fd twins). -/
def releaseList (g : Resources → Resources) (st : St) (csts : List Nat) : St :=
  csts.foldl (releaseForChildG g) st

/-- Common body of the public ReserveMemory / AddStream / AddConn /
AddFD (src/scope.go:203-221, 292-310, 380-398, 467-485) together with
their ForConstraints helpers (223-245, 312-333, 400-421, 487-508):
refuse when done; charge locally; then either recurse into the owner
(transaction scopes) or charge every constraint in order, undoing the
charged prefix and the local charge on failure.  `fuel` bounds the owner
recursion; `none` means fuel ran out or an index dangled. -/
def scopeOp (f : Resources → Except Err Resources) (g : Resources → Resources) :
    Nat → St → Nat → Option (St × Option Err)
  | 0, _, _ => none
  | fuel + 1, st, i =>
    match st[i]? with
    | none => none
    | some s =>
      if s.done then some (st, some .scopeClosed)
      else
        match f s.rc with
        | .error e => some (st, some e)
        | .ok rc' =>
          let st1 := st.set i { s with rc := rc' }
          match s.owner with
          | some o =>
            match scopeOp f g fuel st1 o with
            | none => none
            | some (st2, none) => some (st2, none)
            | some (st2, some e) =>
              match st2[i]? with
              | none => none
              | some s2 => some (st2.set i { s2 with rc := g s2.rc }, some e)
          | none =>
            match chargeList f st1 s.constraints with
            | none => none
            | some (st2, _, none) => some (st2, none)
            | some (st2, n, some e) =>
              let st3 := releaseList g st2 (s.constraints.take n)
              match st3[i]? with
              | none => none
              | some s3 => some (st3.set i { s3 with rc := g s3.rc }, some e)

/-- ResourceScope.ReserveMemory (src/scope.go:203-221). -/
def reserveMemoryScope (fuel : Nat) (st : St) (i : Nat) (size : Int) :
    Option (St × Option Err) :=
  scopeOp (fun rc => rc.reserveMemory size) (fun rc => rc.releaseMemory size) fuel st i

/-- ResourceScope.AddStream (src/scope.go:292-310). -/
def addStreamScope (fuel : Nat) (st : St) (i : Nat) (dir : Direction) :
    Option (St × Option Err) :=
  scopeOp (fun rc => rc.addStream dir) (fun rc => rc.removeStream dir) fuel st i

/-- ResourceScope.AddConn (src/scope.go:380-398). -/
def addConnScope (fuel : Nat) (st : St) (i : Nat) (dir : Direction) :
    Option (St × Option Err) :=
  scopeOp (fun rc => rc.addConn dir) (fun rc => rc.removeConn dir) fuel st i

/-- ResourceScope.AddFD (src/scope.go:467-485). -/
def addFDScope (fuel : Nat) (st : St) (i : Nat) (count : Int) :
    Option (St × Option Err) :=
  scopeOp (fun rc => rc.addFD count) (fun rc => rc.removeFD count) fuel st i

/-- Subtraction of a whole stat from the counters: the release sequence
of ReleaseForChild / ReleaseResources / Done
(releaseMemory; removeStreams; removeConns; removeFD). -/
def subtractStat (rc : Resources) (stat : ScopeStat) : Resources :=
  (((rc.releaseMemory stat.memory).removeStreams stat.numStreamsInbound
      stat.numStreamsOutbound).removeConns stat.numConnsInbound
      stat.numConnsOutbound).removeFD stat.numFD

/-- ResourceScope.ReserveForChild (src/scope.go:555-586): bulk-reserve a
stat on one scope, rolling back the parts that had succeeded when a
later part fails. -/
def reserveForChildSt (st : St) (i : Nat) (stat : ScopeStat) :
    Option (St × Option Err) :=
  match st[i]? with
  | none => none
  | some s =>
    if s.done then some (st, some .scopeClosed)
    else
      match s.rc.reserveMemory stat.memory with
      | .error e => some (st, some e)
      | .ok rc1 =>
        match rc1.addStreams stat.numStreamsInbound stat.numStreamsOutbound with
        | .error e =>
          some (st.set i { s with rc := rc1.releaseMemory stat.memory }, some e)
        | .ok rc2 =>
          match rc2.addConns stat.numConnsInbound stat.numConnsOutbound with
          | .error e =>
            some (st.set i { s with rc :=
              (rc2.removeStreams stat.numStreamsInbound
                stat.numStreamsOutbound).releaseMemory stat.memory }, some e)
          | .ok rc3 =>
            match rc3.addFD stat.numFD with
            | .error e =>
              some (st.set i { s with rc :=
                ((rc3.removeConns stat.numConnsInbound
                  stat.numConnsOutbound).removeStreams stat.numStreamsInbound
                  stat.numStreamsOutbound).releaseMemory stat.memory }, some e)
            | .ok rc4 => some (st.set i { s with rc := rc4 }, none)

/-- ResourceScope.ReleaseForChild (src/scope.go:588-600). -/
def releaseForChildSt (st : St) (i : Nat) (stat : ScopeStat) : St :=
  releaseForChildG (fun rc => subtractStat rc stat) st i

/-- The constraint loop of Done (src/scope.go:649-652):
`cst.ReleaseForChild(stat); cst.DecRef()` for each constraint in order. -/
def doneRelease (stat : ScopeStat) (st : St) (csts : List Nat) : St :=
  csts.foldl (fun acc c => decRef (releaseForChildSt acc c stat) c) st

/-- ResourceScope.ReleaseResources (src/scope.go:602-622): release the
stat locally, then up the owner chain or onto every constraint. -/
def releaseResourcesSt : Nat → St → Nat → ScopeStat → Option St
  | 0, _, _, _ => none
  | fuel + 1, st, i, stat =>
    match st[i]? with
    | none => none
    | some s =>
      if s.done then some st
      else
        let st1 := st.set i { s with rc := subtractStat s.rc stat }
        match s.owner with
        | some o => releaseResourcesSt fuel st1 o stat
        | none =>
          some (s.constraints.foldl (fun acc c => releaseForChildSt acc c stat) st1)

/-- ResourceScope.BeginTransaction (src/scope.go:624-634): refuse when
done, bump the owner's refCnt, and append a fresh transaction scope
carrying the owner's limit.  Returns the new scope's index. -/
def beginTransactionSt (st : St) (i : Nat) : Option (Except Err (St × Nat)) :=
  match st[i]? with
  | none => none
  | some s =>
    if s.done then some (.error .scopeClosed)
    else
      some (.ok (st.set i { s with refCnt := s.refCnt + 1 } ++ [mkTxnScope s.rc.limit i],
        st.length))

/-- Zeroing of the local counters in Done (src/scope.go:655-660). -/
def zeroCounters (rc : Resources) : Resources :=
  { rc with nstreamsIn := 0, nstreamsOut := 0, nconnsIn := 0
            nconnsOut := 0, nfd := 0, memory := 0 }

/-- ResourceScope.Done (src/scope.go:636-663): idempotent; snapshot the
counters, release the snapshot to the owner (via ReleaseResources) or to
every constraint (via ReleaseForChild), DecRef each of them, zero the
local counters and set done. -/
def doneScope (fuel : Nat) (st : St) (i : Nat) : Option St :=
  match st[i]? with
  | none => none
  | some s =>
    if s.done then some st
    else
      let stat := s.rc.stat
      let step : Option St :=
        match s.owner with
        | some o =>
          match releaseResourcesSt fuel st o stat with
          | none => none
          | some st1 => some (decRef st1 o)
        | none => some (doneRelease stat st s.constraints)
      match step with
      | none => none
      | some st2 =>
        match st2[i]? with
        | none => none
        | some s2 =>
          some (st2.set i { s2 with rc := zeroCounters s2.rc, done := true })

/-- ResourceScope.Stat (src/scope.go:665-670): answers on any scope,
with no done-guard. -/
def statScope (st : St) (i : Nat) : Option ScopeStat :=
  (st[i]?).map (fun s => s.rc.stat)

/-- ResourceScope.IsUnused (src/scope.go:686-704): true when done;
false when the refCnt is positive; otherwise true exactly when the
stream, connection and fd counters are all zero.  The memory counter is
not consulted. -/
def Scope.isUnused (s : Scope) : Bool :=
  if s.done then true
  else if s.refCnt > 0 then false
  else
    let st := s.rc.stat
    st.numStreamsInbound == 0 && st.numStreamsOutbound == 0 &&
      st.numConnsInbound == 0 && st.numConnsOutbound == 0 && st.numFD == 0

/-! ### List heap helpers -/

theorem list_get?_lt {α : Type} {l : List α} {i : Nat} {a : α}
    (h : l[i]? = some a) : i < l.length := by
  by_contra hc
  rw [List.getElem?_eq_none (Nat.le_of_not_lt hc)] at h
  cases h

theorem get?_set_ne' {α : Type} {l : List α} {i j : Nat} {x : α}
    (h : i ≠ j) : (l.set i x)[j]? = l[j]? :=
  List.getElem?_set_ne h

theorem get?_set_self' {α : Type} {l : List α} {i : Nat} {x : α}
    (h : i < l.length) : (l.set i x)[i]? = some x :=
  List.getElem?_set_eq_of_lt x h

theorem list_set_id {α : Type} {l : List α} {i : Nat} {a : α}
    (h : l[i]? = some a) : l.set i a = l := by
  induction l generalizing i with
  | nil => cases h
  | cons x xs ih =>
    cases i with
    | zero => simp only [List.getElem?_cons_zero] at h; cases h; rfl
    | succ n =>
      simp only [List.getElem?_cons_succ] at h
      simp only [List.set]
      rw [ih h]

/-! ### Arithmetic facts about the 64-bit wrap -/

theorem wrap64_of_mem {x : Int} (h1 : -(2 ^ 63) ≤ x) (h2 : x < 2 ^ 63) :
    wrap64 x = x := by
  unfold wrap64
  have e1 : (2 : Int) ^ 63 = 9223372036854775808 := by norm_num
  have e2 : (2 : Int) ^ 64 = 18446744073709551616 := by norm_num
  rw [e1, e2] at *
  rw [Int.emod_eq_of_lt (by omega) (by omega)]
  omega

theorem wrap64_of_high {x : Int} (h1 : 2 ^ 63 ≤ x) (h2 : x < 3 * 2 ^ 63) :
    wrap64 x = x - 2 ^ 64 := by
  unfold wrap64
  have e1 : (2 : Int) ^ 63 = 9223372036854775808 := by norm_num
  have e2 : (2 : Int) ^ 64 = 18446744073709551616 := by norm_num
  rw [e1, e2] at *
  rw [show x + 9223372036854775808 =
    (x - 18446744073709551616 + 9223372036854775808) + 1 * 18446744073709551616 by ring]
  rw [Int.add_mul_emod_self]
  rw [Int.emod_eq_of_lt (by omega) (by omega)]
  omega

/-- For int64-range inputs with non-negative current memory, the
overflow branch of checkMemory fires exactly on negative deltas and on
sums that leave the int64 range. -/
theorem checkMemory_overflow_iff (rc : Resources) (d : Int)
    (hm0 : 0 ≤ rc.memory) (hmW : rc.memory < 2 ^ 63)
    (hd1 : -(2 ^ 63) ≤ d) (hd2 : d < 2 ^ 63) :
    wrap64 (rc.memory + d) < rc.memory ↔ (d < 0 ∨ 2 ^ 63 ≤ rc.memory + d) := by
  rcases lt_or_le (rc.memory + d) (2 ^ 63) with hlt | hge
  · rw [wrap64_of_mem (by omega) hlt]
    omega
  · rw [wrap64_of_high hge (by omega)]
    have e1 : (2 : Int) ^ 63 = 9223372036854775808 := by norm_num
    have e2 : (2 : Int) ^ 64 = 18446744073709551616 := by norm_num
    rw [e1, e2] at *
    omega

/-- Successful checkMemory on int64-range inputs means the plain sum is
within `[rc.memory, cap]` (so in particular the delta is non-negative
and the sum did not overflow). -/
theorem checkMemory_ok_bounds {rc : Resources} {d : Int}
    (hm0 : 0 ≤ rc.memory) (hmW : rc.memory < 2 ^ 63)
    (hd1 : -(2 ^ 63) ≤ d) (hd2 : d < 2 ^ 63)
    (h : rc.checkMemory d = .ok ()) :
    0 ≤ d ∧ rc.memory + d < 2 ^ 63 ∧ rc.memory + d ≤ rc.limit.getMemoryLimit := by
  unfold Resources.checkMemory at h
  simp only at h
  rcases lt_or_le (rc.memory + d) (2 ^ 63) with hlt | hge
  · rw [wrap64_of_mem (by omega) hlt] at h
    split at h
    · cases h
    · split at h
      · cases h
      · omega
  · rw [wrap64_of_high hge (by omega)] at h
    have e1 : (2 : Int) ^ 63 = 9223372036854775808 := by norm_num
    have e2 : (2 : Int) ^ 64 = 18446744073709551616 := by norm_num
    split at h
    · cases h
    · exfalso
      rename_i hno
      rw [e1, e2] at *
      omega

/-! ### Characterizations of the counter primitives -/

theorem addStreams_ok_iff (rc : Resources) (i o : Int) (rc' : Resources) :
    rc.addStreams i o = .ok rc' ↔
      (¬(i > 0 ∧ rc.nstreamsIn + i > rc.limit.getStreamLimit .inbound) ∧
       ¬(o > 0 ∧ rc.nstreamsOut + o > rc.limit.getStreamLimit .outbound) ∧
       rc' = { rc with nstreamsIn := rc.nstreamsIn + i
                       nstreamsOut := rc.nstreamsOut + o }) := by
  unfold Resources.addStreams
  split
  · constructor
    · intro h; cases h
    · intro ⟨h1, _, _⟩; exact absurd (by assumption) h1
  · split
    · constructor
      · intro h; cases h
      · intro ⟨_, h2, _⟩; exact absurd (by assumption) h2
    · constructor
      · intro h
        cases h
        exact ⟨by assumption, by assumption, rfl⟩
      · intro ⟨_, _, h3⟩
        rw [h3]

theorem addStreams_error_iff (rc : Resources) (i o : Int) (e : Err) :
    rc.addStreams i o = .error e ↔
      (e = .limitExceeded ∧
        ((i > 0 ∧ rc.nstreamsIn + i > rc.limit.getStreamLimit .inbound) ∨
         (o > 0 ∧ rc.nstreamsOut + o > rc.limit.getStreamLimit .outbound))) := by
  unfold Resources.addStreams
  split
  · constructor
    · intro h; cases h; exact ⟨rfl, Or.inl (by assumption)⟩
    · intro ⟨he, _⟩; rw [he]
  · split
    · constructor
      · intro h; cases h; exact ⟨rfl, Or.inr (by assumption)⟩
      · intro ⟨he, _⟩; rw [he]
    · constructor
      · intro h; cases h
      · intro ⟨_, h2⟩
        rcases h2 with h2 | h2
        · exact absurd h2 (by assumption)
        · exact absurd h2 (by assumption)

theorem addConns_ok_iff (rc : Resources) (i o : Int) (rc' : Resources) :
    rc.addConns i o = .ok rc' ↔
      (¬(i > 0 ∧ rc.nconnsIn + i > rc.limit.getConnLimit .inbound) ∧
       ¬(o > 0 ∧ rc.nconnsOut + o > rc.limit.getConnLimit .outbound) ∧
       rc' = { rc with nconnsIn := rc.nconnsIn + i
                       nconnsOut := rc.nconnsOut + o }) := by
  unfold Resources.addConns
  split
  · constructor
    · intro h; cases h
    · intro ⟨h1, _, _⟩; exact absurd (by assumption) h1
  · split
    · constructor
      · intro h; cases h
      · intro ⟨_, h2, _⟩; exact absurd (by assumption) h2
    · constructor
      · intro h
        cases h
        exact ⟨by assumption, by assumption, rfl⟩
      · intro ⟨_, _, h3⟩
        rw [h3]

theorem addConns_error_iff (rc : Resources) (i o : Int) (e : Err) :
    rc.addConns i o = .error e ↔
      (e = .limitExceeded ∧
        ((i > 0 ∧ rc.nconnsIn + i > rc.limit.getConnLimit .inbound) ∨
         (o > 0 ∧ rc.nconnsOut + o > rc.limit.getConnLimit .outbound))) := by
  unfold Resources.addConns
  split
  · constructor
    · intro h; cases h; exact ⟨rfl, Or.inl (by assumption)⟩
    · intro ⟨he, _⟩; rw [he]
  · split
    · constructor
      · intro h; cases h; exact ⟨rfl, Or.inr (by assumption)⟩
      · intro ⟨he, _⟩; rw [he]
    · constructor
      · intro h; cases h
      · intro ⟨_, h2⟩
        rcases h2 with h2 | h2
        · exact absurd h2 (by assumption)
        · exact absurd h2 (by assumption)

theorem addFD_ok_iff (rc : Resources) (n : Int) (rc' : Resources) :
    rc.addFD n = .ok rc' ↔
      (¬(rc.nfd + n > rc.limit.getFDLimit) ∧ rc' = { rc with nfd := rc.nfd + n }) := by
  unfold Resources.addFD
  split
  · constructor
    · intro h; cases h
    · intro ⟨h1, _⟩; exact absurd (by assumption) h1
  · constructor
    · intro h; cases h; exact ⟨by assumption, rfl⟩
    · intro ⟨_, h2⟩; rw [h2]

/-! ### Reachable states of one counter record -/

/-- States of a single `resources` record reachable through the counter
primitives of src/scope.go: additions with the non-negative counts the
scope layer supplies, and removals subject to the non-negativity the
source asserts (its panic guards). -/
inductive Reachable (L : BaseLimit) : Resources → Prop where
  | init : Reachable L (newResources L)
  | addStreams {rc rc' : Resources} {i o : Int} : Reachable L rc → 0 ≤ i → 0 ≤ o →
      rc.addStreams i o = .ok rc' → Reachable L rc'
  | addConns {rc rc' : Resources} {i o : Int} : Reachable L rc → 0 ≤ i → 0 ≤ o →
      rc.addConns i o = .ok rc' → Reachable L rc'
  | addFD {rc rc' : Resources} {n : Int} : Reachable L rc → 0 ≤ n →
      rc.addFD n = .ok rc' → Reachable L rc'
  | reserveMemory {rc rc' : Resources} {sz : Int} : Reachable L rc →
      -(2 ^ 63) ≤ sz → sz < 2 ^ 63 → rc.reserveMemory sz = .ok rc' → Reachable L rc'
  | removeStreams {rc : Resources} {i o : Int} : Reachable L rc → 0 ≤ i → 0 ≤ o →
      i ≤ rc.nstreamsIn → o ≤ rc.nstreamsOut → Reachable L (rc.removeStreams i o)
  | removeConns {rc : Resources} {i o : Int} : Reachable L rc → 0 ≤ i → 0 ≤ o →
      i ≤ rc.nconnsIn → o ≤ rc.nconnsOut → Reachable L (rc.removeConns i o)
  | removeFD {rc : Resources} {n : Int} : Reachable L rc → 0 ≤ n →
      n ≤ rc.nfd → Reachable L (rc.removeFD n)
  | releaseMemory {rc : Resources} {sz : Int} : Reachable L rc → 0 ≤ sz →
      sz ≤ rc.memory → Reachable L (rc.releaseMemory sz)

/-- Every reachable counter record keeps its limit, stays non-negative,
and adheres to the per-direction stream/conn caps, the fd cap and the
memory cap (for non-negative caps in the int64 range). -/
theorem reachable_bounds {L : BaseLimit} {rc : Resources} (h : Reachable L rc)
    (hsi : 0 ≤ L.streamsInbound) (hso : 0 ≤ L.streamsOutbound)
    (hci : 0 ≤ L.connsInbound) (hco : 0 ≤ L.connsOutbound)
    (hfd : 0 ≤ L.fd) (hme : 0 ≤ L.memory) (hmW : L.memory < 2 ^ 63) :
    rc.limit = L ∧
    0 ≤ rc.nstreamsIn ∧ rc.nstreamsIn ≤ L.streamsInbound ∧
    0 ≤ rc.nstreamsOut ∧ rc.nstreamsOut ≤ L.streamsOutbound ∧
    0 ≤ rc.nconnsIn ∧ rc.nconnsIn ≤ L.connsInbound ∧
    0 ≤ rc.nconnsOut ∧ rc.nconnsOut ≤ L.connsOutbound ∧
    0 ≤ rc.nfd ∧ rc.nfd ≤ L.fd ∧
    0 ≤ rc.memory ∧ rc.memory ≤ L.memory := by
  induction h with
  | init => simp [newResources]; omega
  | addStreams hr hi ho hok ih =>
    obtain ⟨hL, ih'⟩ := ih
    rw [addStreams_ok_iff] at hok
    obtain ⟨h1, h2, h3⟩ := hok
    subst h3
    rw [hL] at h1 h2
    simp only [BaseLimit.getStreamLimit] at h1 h2
    refine ⟨hL, ?_⟩
    simp only
    omega
  | addConns hr hi ho hok ih =>
    obtain ⟨hL, ih'⟩ := ih
    rw [addConns_ok_iff] at hok
    obtain ⟨h1, h2, h3⟩ := hok
    subst h3
    rw [hL] at h1 h2
    simp only [BaseLimit.getConnLimit] at h1 h2
    refine ⟨hL, ?_⟩
    simp only
    omega
  | addFD hr hn hok ih =>
    obtain ⟨hL, ih'⟩ := ih
    rw [addFD_ok_iff] at hok
    obtain ⟨h1, h2⟩ := hok
    subst h2
    rw [hL] at h1
    simp only [BaseLimit.getFDLimit] at h1
    refine ⟨hL, ?_⟩
    simp only
    omega
  | reserveMemory hr hs1 hs2 hok ih =>
    obtain ⟨hL, ih'⟩ := ih
    unfold Resources.reserveMemory at hok
    rename_i rc0 rc0' sz
    rcases hchk : rc0.checkMemory sz with e | u
    · rw [hchk] at hok; cases hok
    · rw [hchk] at hok
      cases hok
      have hb := checkMemory_ok_bounds (by omega) (by omega) hs1 hs2 hchk
      rw [hL] at hb
      simp only [BaseLimit.getMemoryLimit] at hb
      refine ⟨hL, ?_⟩
      simp only
      omega
  | removeStreams hr hi ho hbi hbo ih =>
    obtain ⟨hL, ih'⟩ := ih
    unfold Resources.removeStreams
    refine ⟨hL, ?_⟩
    simp only
    omega
  | removeConns hr hi ho hbi hbo ih =>
    obtain ⟨hL, ih'⟩ := ih
    unfold Resources.removeConns
    refine ⟨hL, ?_⟩
    simp only
    omega
  | removeFD hr hn hb ih =>
    obtain ⟨hL, ih'⟩ := ih
    unfold Resources.removeFD
    refine ⟨hL, ?_⟩
    simp only
    omega
  | releaseMemory hr hs hb ih =>
    obtain ⟨hL, ih'⟩ := ih
    unfold Resources.releaseMemory
    refine ⟨hL, ?_⟩
    simp only
    omega

/-! ### Claim C1 -/

/-- A limit with every cap (including the total-stream and total-conn
caps) set to 1, except memory. -/
def c1Limit : BaseLimit :=
  { streams := 1, streamsInbound := 1, streamsOutbound := 1
    conns := 1, connsInbound := 1, connsOutbound := 1, fd := 1, memory := 4096 }

/-- The record after one successful inbound addStreams call. -/
def c1Mid : Resources :=
  { newResources c1Limit with nstreamsIn := 1 }

/-- The counter record obtained from the fresh record by two successful
addStreams calls, one per direction. -/
def c1State : Resources :=
  { newResources c1Limit with nstreamsIn := 1, nstreamsOut := 1 }

/-- C1, counterexample.  With every stream cap equal to 1 the call
`addStreams 0 1` on a record already holding one inbound stream would
exceed the total-stream cap (1 + 0 + 0 + 1 = 2 > 1), so by the claim it
must fail with LIMIT_EXCEEDED; the code commits it, and the resulting
reachable state violates `n_streams_in + n_streams_out ≤
streams_total_max`.  src/scope.go:107-118 checks only the per-direction
caps. -/
theorem c1_total_cap_not_checked_cex :
    (newResources c1Limit).addStreams 1 0 = .ok c1Mid ∧
    c1Mid.addStreams 0 1 = .ok c1State ∧
    Reachable c1Limit c1State ∧
    ¬ (c1State.nstreamsIn + c1State.nstreamsOut ≤ c1Limit.getStreamTotalLimit) := by
  have h1 : (newResources c1Limit).addStreams 1 0 = .ok c1Mid := by rfl
  have h2 : c1Mid.addStreams 0 1 = .ok c1State := by rfl
  have hr1 : Reachable c1Limit c1Mid :=
    @Reachable.addStreams c1Limit (newResources c1Limit) c1Mid 1 0
      Reachable.init (by decide) (by decide) h1
  have hr2 : Reachable c1Limit c1State :=
    @Reachable.addStreams c1Limit c1Mid c1State 0 1 hr1 (by decide) (by decide) h2
  exact ⟨h1, h2, hr2, by decide⟩

/-- C1, amended.  For non-negative in/out counts, `addStreams` fails
(always with LIMIT_EXCEEDED) exactly when a positive in-count would
exceed the inbound cap or a positive out-count would exceed the outbound
cap, and otherwise commits both counters; `addConns` behaves
analogously; no total cap is consulted.  Consequently every reachable
state adheres to the per-direction caps (the total-cap invariant of the
original claim does not hold, see the counterexample). -/
theorem c1_direction_caps_amended (L : BaseLimit) (rc : Resources) (i o : Int)
    (hi : 0 ≤ i) (ho : 0 ≤ o) (hr : Reachable L rc)
    (hsi : 0 ≤ L.streamsInbound) (hso : 0 ≤ L.streamsOutbound)
    (hci : 0 ≤ L.connsInbound) (hco : 0 ≤ L.connsOutbound)
    (hfd : 0 ≤ L.fd) (hme : 0 ≤ L.memory) (hmW : L.memory < 2 ^ 63) :
    ((∃ e, rc.addStreams i o = .error e) ↔
      ((i > 0 ∧ rc.nstreamsIn + i > rc.limit.getStreamLimit .inbound) ∨
       (o > 0 ∧ rc.nstreamsOut + o > rc.limit.getStreamLimit .outbound))) ∧
    (∀ e, rc.addStreams i o = .error e → e = .limitExceeded) ∧
    (∀ rc', rc.addStreams i o = .ok rc' ↔
      (¬(i > 0 ∧ rc.nstreamsIn + i > rc.limit.getStreamLimit .inbound) ∧
       ¬(o > 0 ∧ rc.nstreamsOut + o > rc.limit.getStreamLimit .outbound) ∧
       rc' = { rc with nstreamsIn := rc.nstreamsIn + i
                       nstreamsOut := rc.nstreamsOut + o })) ∧
    ((∃ e, rc.addConns i o = .error e) ↔
      ((i > 0 ∧ rc.nconnsIn + i > rc.limit.getConnLimit .inbound) ∨
       (o > 0 ∧ rc.nconnsOut + o > rc.limit.getConnLimit .outbound))) ∧
    (∀ e, rc.addConns i o = .error e → e = .limitExceeded) ∧
    (∀ rc', rc.addConns i o = .ok rc' ↔
      (¬(i > 0 ∧ rc.nconnsIn + i > rc.limit.getConnLimit .inbound) ∧
       ¬(o > 0 ∧ rc.nconnsOut + o > rc.limit.getConnLimit .outbound) ∧
       rc' = { rc with nconnsIn := rc.nconnsIn + i
                       nconnsOut := rc.nconnsOut + o })) ∧
    (rc.nstreamsIn ≤ L.getStreamLimit .inbound ∧
     rc.nstreamsOut ≤ L.getStreamLimit .outbound ∧
     rc.nconnsIn ≤ L.getConnLimit .inbound ∧
     rc.nconnsOut ≤ L.getConnLimit .outbound) := by
  have hb := reachable_bounds hr hsi hso hci hco hfd hme hmW
  refine ⟨?_, ?_, ?_, ?_, ?_, ?_, ?_⟩
  · constructor
    · intro ⟨e, he⟩
      exact ((addStreams_error_iff rc i o e).mp he).2
    · intro hcond
      exact ⟨.limitExceeded, (addStreams_error_iff rc i o .limitExceeded).mpr ⟨rfl, hcond⟩⟩
  · intro e he
    exact ((addStreams_error_iff rc i o e).mp he).1
  · intro rc'
    exact addStreams_ok_iff rc i o rc'
  · constructor
    · intro ⟨e, he⟩
      exact ((addConns_error_iff rc i o e).mp he).2
    · intro hcond
      exact ⟨.limitExceeded, (addConns_error_iff rc i o .limitExceeded).mpr ⟨rfl, hcond⟩⟩
  · intro e he
    exact ((addConns_error_iff rc i o e).mp he).1
  · intro rc'
    exact addConns_ok_iff rc i o rc'
  · simp only [BaseLimit.getStreamLimit, BaseLimit.getConnLimit]
    omega

/-- C1, witness for the amended theorem at a concrete reachable state. -/
theorem c1_direction_caps_witness :
    (0 : Int) ≤ 1 ∧ (0 : Int) ≤ 0 ∧ Reachable c1Limit (newResources c1Limit) ∧
    ((∃ e, (newResources c1Limit).addStreams 1 0 = .error e) ↔
      ((1 : Int) > 0 ∧ (newResources c1Limit).nstreamsIn + 1 >
        (newResources c1Limit).limit.getStreamLimit .inbound) ∨
      ((0 : Int) > 0 ∧ (newResources c1Limit).nstreamsOut + 0 >
        (newResources c1Limit).limit.getStreamLimit .outbound)) := by
  refine ⟨by decide, by decide, Reachable.init, ?_⟩
  exact (c1_direction_caps_amended c1Limit (newResources c1Limit) 1 0
    (by decide) (by decide) Reachable.init (by decide) (by decide) (by decide)
    (by decide) (by decide) (by decide) (by norm_num [c1Limit])).1

/-! ### Claim C6 -/

/-- A live scope with zero refCnt, zero stream/conn/fd counters and
1024 bytes of reserved memory. -/
def c6Scope : Scope :=
  { done := false, refCnt := 0
    rc := { limit := { streams := 8, streamsInbound := 8, streamsOutbound := 8
                       conns := 8, connsInbound := 8, connsOutbound := 8
                       fd := 8, memory := 4096 }
            nconnsIn := 0, nconnsOut := 0, nstreamsIn := 0, nstreamsOut := 0
            nfd := 0, memory := 1024 }
    owner := none, constraints := [] }

/-- C6, counterexample.  `IsUnused` (src/scope.go:686-704) returns true
on a scope whose memory counter is 1024, so "all of its counters — …
and memory — are zero" is not equivalent to it: memory is never
consulted. -/
theorem c6_memory_not_checked_cex :
    c6Scope.isUnused = true ∧
    ¬ (c6Scope.done = true ∨
        (c6Scope.refCnt = 0 ∧ c6Scope.rc.nstreamsIn = 0 ∧ c6Scope.rc.nstreamsOut = 0 ∧
         c6Scope.rc.nconnsIn = 0 ∧ c6Scope.rc.nconnsOut = 0 ∧ c6Scope.rc.nfd = 0 ∧
         c6Scope.rc.memory = 0)) := by
  decide

/-- C6, amended.  `is_unused()` returns true iff the scope is done, or
its ref_count is not positive and its stream, connection and fd
counters are all zero; the memory counter is not examined. -/
theorem c6_isUnused_amended (s : Scope) :
    s.isUnused = true ↔
      (s.done = true ∨
        (¬ s.refCnt > 0 ∧ s.rc.nstreamsIn = 0 ∧ s.rc.nstreamsOut = 0 ∧
         s.rc.nconnsIn = 0 ∧ s.rc.nconnsOut = 0 ∧ s.rc.nfd = 0)) := by
  unfold Scope.isUnused
  split
  · simp [*]
  · split
    · rename_i hdone href
      simp only [Bool.false_eq_true, false_iff, not_or]
      refine ⟨by simp [hdone], ?_⟩
      intro ⟨hc, _⟩
      exact hc href
    · rename_i hdone href
      simp only [Resources.stat, Bool.and_eq_true, beq_iff_eq]
      constructor
      · intro ⟨⟨⟨⟨h1, h2⟩, h3⟩, h4⟩, h5⟩
        exact Or.inr ⟨href, h1, h2, h3, h4, h5⟩
      · intro h
        rcases h with h | ⟨_, h1, h2, h3, h4, h5⟩
        · exact absurd h (by simpa using hdone)
        · exact ⟨⟨⟨⟨h1, h2⟩, h3⟩, h4⟩, h5⟩

/-! ### Machinery: compensating releases restore the pre-call heap -/

/-- `g` exactly undoes a successful `f` (release compensates reserve). -/
def CancelPair (f : Resources → Except Err Resources) (g : Resources → Resources) : Prop :=
  ∀ rc rc', f rc = .ok rc' → g rc' = rc

theorem cancel_reserveMemory (size : Int) :
    CancelPair (fun rc => rc.reserveMemory size) (fun rc => rc.releaseMemory size) := by
  intro rc rc' h
  simp only [Resources.reserveMemory] at h
  rcases hc : rc.checkMemory size with e | u
  · rw [hc] at h; cases h
  · rw [hc] at h
    cases h
    unfold Resources.releaseMemory
    cases rc
    simp

theorem cancel_addStream (dir : Direction) :
    CancelPair (fun rc => rc.addStream dir) (fun rc => rc.removeStream dir) := by
  intro rc rc' h
  cases dir <;>
    simp only [Resources.addStream, Resources.removeStream] at * <;>
    rw [addStreams_ok_iff] at h <;>
    obtain ⟨-, -, h3⟩ := h <;>
    subst h3 <;>
    unfold Resources.removeStreams <;>
    cases rc <;>
    simp

theorem cancel_addConn (dir : Direction) :
    CancelPair (fun rc => rc.addConn dir) (fun rc => rc.removeConn dir) := by
  intro rc rc' h
  cases dir <;>
    simp only [Resources.addConn, Resources.removeConn] at * <;>
    rw [addConns_ok_iff] at h <;>
    obtain ⟨-, -, h3⟩ := h <;>
    subst h3 <;>
    unfold Resources.removeConns <;>
    cases rc <;>
    simp

theorem cancel_addFD (n : Int) :
    CancelPair (fun rc => rc.addFD n) (fun rc => rc.removeFD n) := by
  intro rc rc' h
  rw [addFD_ok_iff] at h
  obtain ⟨-, h2⟩ := h
  subst h2
  unfold Resources.removeFD
  cases rc
  simp

/-- Two child releases commute (they only touch their own scope's
counters). -/
theorem releaseForChildG_comm (g : Resources → Resources) (st : St) (a b : Nat) :
    releaseForChildG g (releaseForChildG g st a) b =
      releaseForChildG g (releaseForChildG g st b) a := by
  by_cases hab : a = b
  · subst hab; rfl
  · have hba : b ≠ a := Ne.symm hab
    unfold releaseForChildG
    rcases ha : st[a]? with _ | sa <;> rcases hb : st[b]? with _ | sb
    · simp [ha, hb]
    · simp only [ha, hb]
      by_cases hdb : sb.done = true
      · simp [hdb, ha]
      · simp [hdb, get?_set_ne' hba, ha]
    · simp only [ha, hb]
      by_cases hda : sa.done = true
      · simp [hda, hb]
      · simp [hda, get?_set_ne' hab, hb]
    · simp only [ha, hb]
      by_cases hda : sa.done = true <;> by_cases hdb : sb.done = true
      · simp [hda, hdb, ha, hb]
      · simp [hda, hdb, ha, hb, get?_set_ne' hba]
      · simp [hda, hdb, ha, hb, get?_set_ne' hab]
      · simp [hda, hdb, ha, hb, get?_set_ne' hab, get?_set_ne' hba]
        exact List.set_comm _ _ st hab

/-- Releasing one more child before a batch equals releasing it after. -/
theorem releaseList_cons_comm (g : Resources → Resources) (st : St) (c : Nat)
    (l : List Nat) :
    releaseList g (releaseForChildG g st c) l =
      releaseForChildG g (releaseList g st l) c := by
  induction l generalizing st with
  | nil => rfl
  | cons x xs ih =>
    show releaseList g (releaseForChildG g (releaseForChildG g st c) x) xs = _
    rw [releaseForChildG_comm g st c x]
    exact ih (releaseForChildG g st x)

/-- When the charging loop stops at an error, releasing the charged
prefix restores the heap it started from. -/
theorem chargeList_err_restore {f : Resources → Except Err Resources}
    {g : Resources → Resources} (hcancel : CancelPair f g) :
    ∀ (csts : List Nat) (st st2 : St) (n : Nat) (e : Err),
      chargeList f st csts = some (st2, n, some e) →
      releaseList g st2 (csts.take n) = st := by
  intro csts
  induction csts with
  | nil =>
    intro st st2 n e h
    simp only [chargeList] at h
    cases h
  | cons c rest ih =>
    intro st st2 n e h
    simp only [chargeList] at h
    rcases hstep : stepForChild f st c with _ | res
    · rw [hstep] at h; cases h
    · rw [hstep] at h
      rcases res with e' | st1
      · simp only at h
        cases h
        rfl
      · simp only at h
        rcases hrest : chargeList f st1 rest with _ | p
        · rw [hrest] at h; cases h
        · obtain ⟨st2', n', err'⟩ := p
          rw [hrest] at h
          simp only at h
          rcases err' with _ | e''
          · simp at h
          · simp only [Option.some.injEq, Prod.mk.injEq] at h
            obtain ⟨h1, h2, h3⟩ := h
            subst h1
            subst h2
            subst h3
            show releaseList g st2' (c :: rest.take n') = st
            show releaseList g (releaseForChildG g st2' c) (rest.take n') = st
            rw [releaseList_cons_comm]
            rw [ih st1 st2' n' e'' hrest]
            -- now: releaseForChildG g st1 c = st
            unfold stepForChild at hstep
            rcases hg : st[c]? with _ | s
            · rw [hg] at hstep; cases hstep
            · rw [hg] at hstep
              by_cases hd : s.done
              · simp only [hd, if_true] at hstep; cases hstep
              · simp only [hd, if_false] at hstep
                rcases hf : f s.rc with e3 | rc'
                · rw [hf] at hstep; cases hstep
                · rw [hf] at hstep
                  cases hstep
                  unfold releaseForChildG
                  have hlt : c < st.length := list_get?_lt hg
                  rw [get?_set_self' (by simpa using hlt)]
                  simp only [hd, if_false]
                  rw [List.set_set]
                  rw [hcancel s.rc rc' hf]
                  have hs' : Scope.mk false s.refCnt s.rc s.owner s.constraints = s := by
                    cases s
                    simp_all
                  rw [hs']
                  exact list_set_id hg

/-- Anatomy of a successful child charge. -/
theorem stepForChild_ok {f : Resources → Except Err Resources} {st : St} {c : Nat}
    {st' : St} (h : stepForChild f st c = some (.ok st')) :
    ∃ s rc', st[c]? = some s ∧ s.done = false ∧ f s.rc = .ok rc' ∧
      st' = st.set c { s with rc := rc' } := by
  unfold stepForChild at h
  rcases hg : st[c]? with _ | s
  · rw [hg] at h; cases h
  · rw [hg] at h
    by_cases hd : s.done = true
    · simp only [hd, if_true] at h; cases h
    · simp only [hd, if_false] at h
      rcases hf : f s.rc with e | rc'
      · rw [hf] at h; cases h
      · rw [hf] at h
        cases h
        have hdf : s.done = false := by simpa using hd
        refine ⟨s, rc', rfl, hdf, hf, ?_⟩
        rw [hdf]

/-- A successful charging loop does not touch scopes outside the
constraint list. -/
theorem chargeList_ok_frame {f : Resources → Except Err Resources} :
    ∀ (csts : List Nat) (st st2 : St) (n : Nat),
      chargeList f st csts = some (st2, n, none) →
      ∀ j, j ∉ csts → st2[j]? = st[j]? := by
  intro csts
  induction csts with
  | nil =>
    intro st st2 n h j _
    simp only [chargeList] at h
    simp only [Option.some.injEq, Prod.mk.injEq] at h
    obtain ⟨h1, -, -⟩ := h
    rw [h1]
  | cons c rest ih =>
    intro st st2 n h j hj
    simp only [chargeList] at h
    rcases hstep : stepForChild f st c with _ | res
    · rw [hstep] at h; cases h
    · rw [hstep] at h
      rcases res with e' | st1
      · simp at h
      · simp only at h
        rcases hrest : chargeList f st1 rest with _ | p
        · rw [hrest] at h; cases h
        · obtain ⟨st2', n', err'⟩ := p
          rw [hrest] at h
          simp only [Option.some.injEq, Prod.mk.injEq] at h
          obtain ⟨h1, -, h3⟩ := h
          subst h1
          rcases err' with _ | e''
          · obtain ⟨s, rc', hg, hd, hf, hst1⟩ := stepForChild_ok hstep
            have hjc : j ≠ c := fun hh => hj (hh ▸ List.mem_cons_self c rest)
            have hjr : j ∉ rest := fun hh => hj (List.mem_cons_of_mem c hh)
            rw [ih st1 _ n' hrest j hjr, hst1, get?_set_ne' (Ne.symm hjc)]
          · cases h3

/-- In a successful charging loop over distinct constraints, every
constraint was live and got exactly one application of `f`. -/
theorem chargeList_ok_member {f : Resources → Except Err Resources} :
    ∀ (csts : List Nat) (st st2 : St) (n : Nat),
      chargeList f st csts = some (st2, n, none) → csts.Nodup →
      ∀ c ∈ csts, ∃ s rc', st[c]? = some s ∧ s.done = false ∧ f s.rc = .ok rc' ∧
        st2[c]? = some { s with rc := rc' } := by
  intro csts
  induction csts with
  | nil =>
    intro st st2 n h _ c hc
    cases hc
  | cons c0 rest ih =>
    intro st st2 n h hnd c hc
    simp only [chargeList] at h
    rcases hstep : stepForChild f st c0 with _ | res
    · rw [hstep] at h; cases h
    · rw [hstep] at h
      rcases res with e' | st1
      · simp at h
      · simp only at h
        rcases hrest : chargeList f st1 rest with _ | p
        · rw [hrest] at h; cases h
        · obtain ⟨st2', n', err'⟩ := p
          rw [hrest] at h
          simp only [Option.some.injEq, Prod.mk.injEq] at h
          obtain ⟨h1, -, h3⟩ := h
          subst h1
          rcases err' with _ | e''
          · obtain ⟨s, rc', hg, hd, hf, hst1⟩ := stepForChild_ok hstep
            have hc0r : c0 ∉ rest := (List.nodup_cons.mp hnd).1
            have hndr : rest.Nodup := (List.nodup_cons.mp hnd).2
            rcases List.mem_cons.mp hc with hceq | hcr
            · subst hceq
              refine ⟨s, rc', hg, hd, hf, ?_⟩
              rw [chargeList_ok_frame rest st1 _ n' hrest c hc0r, hst1]
              exact get?_set_self' (by simpa using list_get?_lt hg)
            · have hcc0 : c ≠ c0 := fun hh => hc0r (hh ▸ hcr)
              obtain ⟨sc, rcc, hgc, hdc, hfc, hgc2⟩ := ih st1 _ n' hrest hndr c hcr
              refine ⟨sc, rcc, ?_, hdc, hfc, hgc2⟩
              rw [← hgc, hst1, get?_set_ne' (Ne.symm hcc0)]
          · cases h3

/-- Every scope-level reservation that reports an error leaves the whole
heap exactly as it was (compensating releases included). -/
theorem scopeOp_err {f : Resources → Except Err Resources}
    {g : Resources → Resources} (hcancel : CancelPair f g) :
    ∀ (fuel : Nat) (st : St) (i : Nat) (st' : St) (e : Err),
      scopeOp f g fuel st i = some (st', some e) → st' = st := by
  intro fuel
  induction fuel with
  | zero =>
    intro st i st' e h
    cases h
  | succ fuel ih =>
    intro st i st' e h
    simp only [scopeOp] at h
    rcases hg : st[i]? with _ | s
    · rw [hg] at h; cases h
    · obtain ⟨sd, srf, src0, sow, scs⟩ := s
      rw [hg] at h
      simp only at h
      by_cases hd : sd = true
      · rw [if_pos hd] at h
        simp only [Option.some.injEq, Prod.mk.injEq] at h
        exact h.1.symm
      · rw [if_neg hd] at h
        rcases hf : f src0 with e0 | rc'
        · rw [hf] at h
          simp only [Option.some.injEq, Prod.mk.injEq] at h
          exact h.1.symm
        · rw [hf] at h
          simp only at h
          have hlt : i < st.length := list_get?_lt hg
          rcases sow with _ | o
          · simp only at h
            have hget1 : (st.set i (Scope.mk sd srf rc' none scs))[i]? =
                some (Scope.mk sd srf rc' none scs) := get?_set_self' (by simpa using hlt)
            rcases hch : chargeList f (st.set i (Scope.mk sd srf rc' none scs)) scs
              with _ | p
            · rw [hch] at h; cases h
            · obtain ⟨st2, n, err⟩ := p
              rw [hch] at h
              rcases err with _ | e2
              · simp at h
              · simp only at h
                have hrel := chargeList_err_restore hcancel scs
                  (st.set i (Scope.mk sd srf rc' none scs)) st2 n e2 hch
                rw [hrel, hget1] at h
                simp only [Option.some.injEq, Prod.mk.injEq] at h
                obtain ⟨h1, -⟩ := h
                subst h1
                rw [List.set_set]
                show List.set st i (Scope.mk sd srf (g rc') none scs) = st
                rw [hcancel src0 rc' hf]
                exact list_set_id hg
          · simp only at h
            have hget1 : (st.set i (Scope.mk sd srf rc' (some o) scs))[i]? =
                some (Scope.mk sd srf rc' (some o) scs) := get?_set_self' (by simpa using hlt)
            rcases hrec : scopeOp f g fuel (st.set i (Scope.mk sd srf rc' (some o) scs)) o
              with _ | p
            · rw [hrec] at h; cases h
            · obtain ⟨st2, err⟩ := p
              rw [hrec] at h
              rcases err with _ | e2
              · simp at h
              · simp only at h
                have h2 := ih _ o st2 e2 hrec
                rw [h2, hget1] at h
                simp only [Option.some.injEq, Prod.mk.injEq] at h
                obtain ⟨h1, -⟩ := h
                subst h1
                rw [List.set_set]
                show List.set st i (Scope.mk sd srf (g rc') (some o) scs) = st
                rw [hcancel src0 rc' hf]
                exact list_set_id hg

/-- Anatomy of a successful scope-level operation on a DAG (leaf)
scope: the scope was live, the local charge succeeded, and the charging
loop over the constraints succeeded from the locally-charged heap. -/
theorem scopeOp_ok_leaf {f : Resources → Except Err Resources}
    {g : Resources → Resources} {fuel : Nat} {st : St} {i : Nat} {s : Scope} {st' : St}
    (hs : st[i]? = some s) (how : s.owner = none)
    (h : scopeOp f g fuel st i = some (st', none)) :
    ∃ rc' n, s.done = false ∧ f s.rc = .ok rc' ∧
      chargeList f (st.set i { s with rc := rc' }) s.constraints = some (st', n, none) := by
  obtain ⟨sd, srf, src0, sow, scs⟩ := s
  simp only at how
  subst how
  cases fuel with
  | zero => cases h
  | succ fuel =>
    simp only [scopeOp] at h
    rw [hs] at h
    simp only at h
    by_cases hd : sd = true
    · rw [if_pos hd] at h
      simp at h
    · rw [if_neg hd] at h
      rcases hf : f src0 with e0 | rc'
      · rw [hf] at h
        simp at h
      · rw [hf] at h
        simp only at h
        rcases hch : chargeList f (st.set i (Scope.mk sd srf rc' none scs)) scs
          with _ | p
        · rw [hch] at h; cases h
        · obtain ⟨st2, n, err⟩ := p
          rw [hch] at h
          rcases err with _ | e2
          · simp only [Option.some.injEq, Prod.mk.injEq] at h
            obtain ⟨h1, -⟩ := h
            subst h1
            exact ⟨rc', n, by simpa using hd, rfl, hch⟩
          · simp only at h
            rcases hg2 : (releaseList g st2 (List.take n scs))[i]? with _ | s3
            · rw [hg2] at h; cases h
            · rw [hg2] at h
              simp at h

/-! ### Claim C3 -/

/-- C3: every reservation (memory, stream, conn, fd) on any scope that
returns an error leaves every counter on every scope exactly as before
the call: the compensating releases undo precisely the constraints that
had been charged, and the local reservation is released. -/
theorem c3_atomic_failure (fuel : Nat) (st : St) (i : Nat) (st' : St) (e : Err) :
    (∀ size, reserveMemoryScope fuel st i size = some (st', some e) → st' = st) ∧
    (∀ dir, addStreamScope fuel st i dir = some (st', some e) → st' = st) ∧
    (∀ dir, addConnScope fuel st i dir = some (st', some e) → st' = st) ∧
    (∀ count, addFDScope fuel st i count = some (st', some e) → st' = st) := by
  refine ⟨?_, ?_, ?_, ?_⟩
  · intro size h
    exact scopeOp_err (cancel_reserveMemory size) fuel st i st' e h
  · intro dir h
    exact scopeOp_err (cancel_addStream dir) fuel st i st' e h
  · intro dir h
    exact scopeOp_err (cancel_addConn dir) fuel st i st' e h
  · intro count h
    exact scopeOp_err (cancel_addFD count) fuel st i st' e h

/-- A one-scope heap whose limit admits nothing at all. -/
def c3St : St :=
  [mkDagScope { streams := 0, streamsInbound := 0, streamsOutbound := 0
                conns := 0, connsInbound := 0, connsOutbound := 0
                fd := 0, memory := 0 } []]

/-- C3, witness: a concrete failing memory reservation, whose final heap
the theorem pins to the initial one. -/
theorem c3_atomic_failure_witness :
    reserveMemoryScope 1 c3St 0 1 = some (c3St, some Err.limitExceeded) ∧ c3St = c3St :=
  ⟨by decide, (c3_atomic_failure 1 c3St 0 c3St Err.limitExceeded).1 1 (by decide)⟩

/-! ### Claim C9 -/

/-- C9: on int64-range inputs, checkMemory reports the overflow flavour
of LIMIT_EXCEEDED exactly when the wrapped sum `memory + delta` is less
than the current memory — equivalently, exactly on negative deltas and
on sums leaving the int64 range; a failed check commits nothing, a
failed scope-level ReserveMemory leaves the whole heap unchanged, and a
negative amount can never be reserved through the public ReserveMemory. -/
theorem c9_overflow_check (rc : Resources) (d : Int)
    (hm0 : 0 ≤ rc.memory) (hmW : rc.memory < 2 ^ 63)
    (hd1 : -(2 ^ 63) ≤ d) (hd2 : d < 2 ^ 63) :
    (rc.checkMemory d = .error .memoryOverflow ↔ wrap64 (rc.memory + d) < rc.memory) ∧
    (rc.checkMemory d = .error .memoryOverflow ↔ (d < 0 ∨ 2 ^ 63 ≤ rc.memory + d)) ∧
    (∀ e, rc.checkMemory d = .error e → rc.reserveMemory d = .error e) ∧
    (∀ fuel st i st' e, reserveMemoryScope fuel st i d = some (st', some e) → st' = st) ∧
    (d < 0 → ∀ fuel st i s st' oe, st[i]? = some s → s.rc = rc →
      reserveMemoryScope fuel st i d = some (st', oe) →
      st' = st ∧ ∃ e, oe = some e) := by
  have hoverfl : rc.checkMemory d = .error .memoryOverflow ↔
      wrap64 (rc.memory + d) < rc.memory := by
    unfold Resources.checkMemory
    simp only
    by_cases hlt : wrap64 (rc.memory + d) < rc.memory
    · rw [if_pos hlt]
      simp [hlt]
    · rw [if_neg hlt]
      constructor
      · intro hh
        split at hh
        · cases hh
        · cases hh
      · intro hh
        exact absurd hh hlt
  have hiff2 : rc.checkMemory d = .error .memoryOverflow ↔
      (d < 0 ∨ 2 ^ 63 ≤ rc.memory + d) := by
    rw [hoverfl]
    exact checkMemory_overflow_iff rc d hm0 hmW hd1 hd2
  refine ⟨hoverfl, hiff2, ?_, ?_, ?_⟩
  · intro e he
    unfold Resources.reserveMemory
    rw [he]
  · intro fuel st i st' e h
    exact scopeOp_err (cancel_reserveMemory d) fuel st i st' e h
  · intro hneg fuel st i s st' oe hs hrc h
    have herr : rc.checkMemory d = .error .memoryOverflow := hiff2.mpr (Or.inl hneg)
    cases fuel with
    | zero => cases h
    | succ fuel =>
      simp only [reserveMemoryScope, scopeOp] at h
      rw [hs] at h
      simp only at h
      by_cases hd : s.done = true
      · rw [if_pos hd] at h
        simp only [Option.some.injEq, Prod.mk.injEq] at h
        exact ⟨h.1.symm, .scopeClosed, h.2.symm⟩
      · rw [if_neg hd] at h
        have hres : s.rc.reserveMemory d = .error .memoryOverflow := by
          rw [hrc]
          unfold Resources.reserveMemory
          rw [herr]
        rw [hres] at h
        simp only [Option.some.injEq, Prod.mk.injEq] at h
        exact ⟨h.1.symm, .memoryOverflow, h.2.symm⟩

/-- A one-scope heap with memory cap 4096 and nothing reserved. -/
def c9St : St :=
  [mkDagScope { streams := 1, streamsInbound := 1, streamsOutbound := 1
                conns := 1, connsInbound := 1, connsOutbound := 1
                fd := 1, memory := 4096 } []]

/-- C9, witness at delta = -1 on a concrete scope. -/
theorem c9_overflow_check_witness :
    ((0 : Int) ≤ 0 ∧ (0 : Int) < 2 ^ 63 ∧ -(2 ^ 63) ≤ (-1 : Int) ∧ (-1 : Int) < 2 ^ 63) ∧
    ((mkDagScope { streams := 1, streamsInbound := 1, streamsOutbound := 1
                   conns := 1, connsInbound := 1, connsOutbound := 1
                   fd := 1, memory := 4096 } []).rc.checkMemory (-1) =
        .error .memoryOverflow ↔ ((-1 : Int) < 0 ∨ 2 ^ 63 ≤ 0 + (-1))) := by
  constructor
  · refine ⟨le_refl 0, by norm_num, by norm_num, by norm_num⟩
  · exact (c9_overflow_check
      (mkDagScope { streams := 1, streamsInbound := 1, streamsOutbound := 1
                    conns := 1, connsInbound := 1, connsOutbound := 1
                    fd := 1, memory := 4096 } []).rc (-1)
      (by decide) (by decide) (by decide) (by decide)).2.1

/-! ### Claim C2: commit shapes and the Done loop -/

/-- The counter update a successful addStream(dir) commits. -/
def commitStream (dir : Direction) (rc : Resources) : Resources :=
  match dir with
  | .inbound => { rc with nstreamsIn := rc.nstreamsIn + 1 }
  | .outbound => { rc with nstreamsOut := rc.nstreamsOut + 1 }

/-- The counter update a successful addConn(dir) commits. -/
def commitConn (dir : Direction) (rc : Resources) : Resources :=
  match dir with
  | .inbound => { rc with nconnsIn := rc.nconnsIn + 1 }
  | .outbound => { rc with nconnsOut := rc.nconnsOut + 1 }

theorem reserveMemory_ok_shape {rc rc' : Resources} {size : Int}
    (h : rc.reserveMemory size = .ok rc') :
    rc' = { rc with memory := rc.memory + size } := by
  unfold Resources.reserveMemory at h
  rcases hc : rc.checkMemory size with e | u
  · rw [hc] at h; cases h
  · rw [hc] at h; cases h; rfl

theorem addStream_ok_shape {rc rc' : Resources} {dir : Direction}
    (h : rc.addStream dir = .ok rc') : rc' = commitStream dir rc := by
  cases dir <;>
    simp only [Resources.addStream] at h <;>
    rw [addStreams_ok_iff] at h <;>
    obtain ⟨-, -, h3⟩ := h <;>
    subst h3 <;>
    unfold commitStream <;>
    cases rc <;>
    simp

theorem addConn_ok_shape {rc rc' : Resources} {dir : Direction}
    (h : rc.addConn dir = .ok rc') : rc' = commitConn dir rc := by
  cases dir <;>
    simp only [Resources.addConn] at h <;>
    rw [addConns_ok_iff] at h <;>
    obtain ⟨-, -, h3⟩ := h <;>
    subst h3 <;>
    unfold commitConn <;>
    cases rc <;>
    simp

theorem addFD_ok_shape {rc rc' : Resources} {n : Int}
    (h : rc.addFD n = .ok rc') : rc' = { rc with nfd := rc.nfd + n } := by
  rw [addFD_ok_iff] at h
  exact h.2

/-- Effect of one `ReleaseForChild + DecRef` step of Done on a missing
index. -/
theorem doneStep_none {stat : ScopeStat} {st : St} {c : Nat} (h : st[c]? = none) :
    decRef (releaseForChildSt st c stat) c = st := by
  unfold decRef releaseForChildSt releaseForChildG
  rw [h]
  simp only [h]

/-- Effect of one `ReleaseForChild + DecRef` step of Done on a present
index: the stat is subtracted when the child is live, and the refCnt is
decremented unconditionally. -/
theorem doneStep_some {stat : ScopeStat} {st : St} {c : Nat} {sc : Scope}
    (h : st[c]? = some sc) :
    decRef (releaseForChildSt st c stat) c =
      st.set c { sc with
        refCnt := sc.refCnt - 1
        rc := (if sc.done = true then sc.rc else subtractStat sc.rc stat) } := by
  have hlt : c < st.length := list_get?_lt h
  by_cases hd : sc.done = true
  · have h1 : releaseForChildSt st c stat = st := by
      unfold releaseForChildSt releaseForChildG
      rw [h]
      simp only
      rw [if_pos hd]
    rw [h1]
    unfold decRef
    rw [h]
    simp only
    simp [hd]
  · have h1 : releaseForChildSt st c stat =
        st.set c { sc with rc := subtractStat sc.rc stat } := by
      unfold releaseForChildSt releaseForChildG
      rw [h]
      simp only
      rw [if_neg hd]
    rw [h1]
    unfold decRef
    rw [get?_set_self' (by simpa using hlt)]
    simp only
    rw [List.set_set]
    simp [hd]

/-- The Done loop never touches scopes outside the constraint list. -/
theorem doneRelease_frame (stat : ScopeStat) :
    ∀ (csts : List Nat) (st : St) (j : Nat), j ∉ csts →
      (doneRelease stat st csts)[j]? = st[j]? := by
  intro csts
  induction csts with
  | nil => intro st j _; rfl
  | cons c rest ih =>
    intro st j hj
    have hjc : j ≠ c := fun hh => hj (hh ▸ List.mem_cons_self c rest)
    have hjr : j ∉ rest := fun hh => hj (List.mem_cons_of_mem c hh)
    show (doneRelease stat (decRef (releaseForChildSt st c stat) c) rest)[j]? = st[j]?
    rw [ih _ j hjr]
    rcases hc : st[c]? with _ | sc
    · rw [doneStep_none hc]
    · rw [doneStep_some hc, get?_set_ne' (Ne.symm hjc)]

/-- Effect of the Done loop on each distinct constraint. -/
theorem doneRelease_member (stat : ScopeStat) :
    ∀ (csts : List Nat) (st : St), csts.Nodup →
      ∀ c ∈ csts, ∀ sc, st[c]? = some sc →
        (doneRelease stat st csts)[c]? =
          some { sc with
            refCnt := sc.refCnt - 1
            rc := (if sc.done = true then sc.rc else subtractStat sc.rc stat) } := by
  intro csts
  induction csts with
  | nil => intro st _ c hc; cases hc
  | cons c0 rest ih =>
    intro st hnd c hc sc hsc
    have hc0r : c0 ∉ rest := (List.nodup_cons.mp hnd).1
    have hndr : rest.Nodup := (List.nodup_cons.mp hnd).2
    show (doneRelease stat (decRef (releaseForChildSt st c0 stat) c0) rest)[c]? = _
    rcases List.mem_cons.mp hc with hceq | hcr
    · subst hceq
      rw [doneRelease_frame stat rest _ c hc0r]
      rw [doneStep_some hsc]
      exact get?_set_self' (by simpa using list_get?_lt hsc)
    · have hcc0 : c ≠ c0 := fun hh => hc0r (hh ▸ hcr)
      have hsc1 : (decRef (releaseForChildSt st c0 stat) c0)[c]? = some sc := by
        rcases hg0 : st[c0]? with _ | sc0
        · rw [doneStep_none hg0]; exact hsc
        · rw [doneStep_some hg0, get?_set_ne' (Ne.symm hcc0)]; exact hsc
      exact ih _ hndr c hcr sc hsc1

/-- Done on a live DAG (leaf) scope: the final heap is exactly the Done
loop applied to the constraints, with the scope's counters zeroed and
its done flag set. -/
theorem doneScope_leaf {fuel : Nat} {st : St} {i : Nat} {s : Scope} {st' : St}
    (hs : st[i]? = some s) (hd : s.done = false) (how : s.owner = none)
    (hni : i ∉ s.constraints)
    (h : doneScope fuel st i = some st') :
    st' = (doneRelease s.rc.stat st s.constraints).set i
      { s with rc := zeroCounters s.rc, done := true } := by
  obtain ⟨sd, srf, src0, sow, scs⟩ := s
  simp only at hd how hni
  subst hd
  subst how
  simp only [doneScope] at h
  rw [hs] at h
  simp only [if_false, Bool.false_eq_true] at h
  have hg2 : (doneRelease (Resources.stat src0) st scs)[i]? =
      some (Scope.mk false srf src0 none scs) := by
    rw [doneRelease_frame _ scs st i hni]
    exact hs
  rw [hg2] at h
  simp only [Option.some.injEq] at h
  exact h.symm

/-- C2: on a leaf scope with distinct linearized constraints, every unit
successfully reserved (memory, stream, conn, fd) is charged on the leaf
and on each constraint at the moment the reservation returns; and
Done snapshots the counters, releases the snapshot from every live
constraint (decrementing each refCnt), and zeroes the local counters. -/
theorem c2_conservation (st : St) (i : Nat) (s : Scope) (fuel : Nat)
    (hs : st[i]? = some s) (how : s.owner = none)
    (hnd : s.constraints.Nodup) (hni : i ∉ s.constraints) :
    (∀ size st', reserveMemoryScope fuel st i size = some (st', none) →
      st'[i]? = some { s with rc := { s.rc with memory := s.rc.memory + size } } ∧
      ∀ c ∈ s.constraints, ∀ sc, st[c]? = some sc →
        st'[c]? = some { sc with rc := { sc.rc with memory := sc.rc.memory + size } }) ∧
    (∀ dir st', addStreamScope fuel st i dir = some (st', none) →
      st'[i]? = some { s with rc := commitStream dir s.rc } ∧
      ∀ c ∈ s.constraints, ∀ sc, st[c]? = some sc →
        st'[c]? = some { sc with rc := commitStream dir sc.rc }) ∧
    (∀ dir st', addConnScope fuel st i dir = some (st', none) →
      st'[i]? = some { s with rc := commitConn dir s.rc } ∧
      ∀ c ∈ s.constraints, ∀ sc, st[c]? = some sc →
        st'[c]? = some { sc with rc := commitConn dir sc.rc }) ∧
    (∀ n st', addFDScope fuel st i n = some (st', none) →
      st'[i]? = some { s with rc := { s.rc with nfd := s.rc.nfd + n } } ∧
      ∀ c ∈ s.constraints, ∀ sc, st[c]? = some sc →
        st'[c]? = some { sc with rc := { sc.rc with nfd := sc.rc.nfd + n } }) ∧
    (s.done = false → ∀ st', doneScope fuel st i = some st' →
      st'[i]? = some { s with rc := zeroCounters s.rc, done := true } ∧
      ∀ c ∈ s.constraints, ∀ sc, st[c]? = some sc →
        st'[c]? = some { sc with
          refCnt := sc.refCnt - 1
          rc := (if sc.done = true then sc.rc else subtractStat sc.rc s.rc.stat) }) := by
  have main : ∀ (f : Resources → Except Err Resources) (g : Resources → Resources)
      (com : Resources → Resources),
      (∀ rc rc', f rc = .ok rc' → rc' = com rc) →
      ∀ st', scopeOp f g fuel st i = some (st', none) →
        st'[i]? = some { s with rc := com s.rc } ∧
        ∀ c ∈ s.constraints, ∀ sc, st[c]? = some sc →
          st'[c]? = some { sc with rc := com sc.rc } := by
    intro f g com hshape st' h
    obtain ⟨rc', n, hd, hf, hch⟩ := scopeOp_ok_leaf hs how h
    have hrc' : rc' = com s.rc := hshape _ _ hf
    subst hrc'
    constructor
    · rw [chargeList_ok_frame _ _ _ _ hch i hni]
      exact get?_set_self' (by simpa using list_get?_lt hs)
    · intro c hc sc hsc
      have hcne : c ≠ i := fun hh => hni (hh ▸ hc)
      obtain ⟨sc1, rc1, hg1, hd1, hf1, hg2⟩ :=
        chargeList_ok_member _ _ _ _ hch hnd c hc
      rw [get?_set_ne' (Ne.symm hcne), hsc] at hg1
      cases hg1
      rw [hg2, hshape _ _ hf1]
  refine ⟨?_, ?_, ?_, ?_, ?_⟩
  · intro size st' h
    exact main _ _ (fun rc => { rc with memory := rc.memory + size })
      (fun rc rc' hh => reserveMemory_ok_shape hh) st' h
  · intro dir st' h
    exact main _ _ (commitStream dir) (fun rc rc' hh => addStream_ok_shape hh) st' h
  · intro dir st' h
    exact main _ _ (commitConn dir) (fun rc rc' hh => addConn_ok_shape hh) st' h
  · intro n st' h
    exact main _ _ (fun rc => { rc with nfd := rc.nfd + n })
      (fun rc rc' hh => addFD_ok_shape hh) st' h
  · intro hdone st' h
    have hst' := doneScope_leaf hs hdone how hni h
    subst hst'
    constructor
    · exact get?_set_self' (by
        rw [show (doneRelease s.rc.stat st s.constraints).length = st.length from ?_]
        · simpa using list_get?_lt hs
        · have hlen : ∀ (l : List Nat) (st0 : St),
              (doneRelease s.rc.stat st0 l).length = st0.length := by
            intro l
            induction l with
            | nil => intro st0; rfl
            | cons c0 rest ih =>
              intro st0
              show (doneRelease s.rc.stat (decRef (releaseForChildSt st0 c0 s.rc.stat) c0)
                rest).length = st0.length
              rw [ih]
              rcases hg0 : st0[c0]? with _ | sc0
              · rw [doneStep_none hg0]
              · rw [doneStep_some hg0, List.length_set]
          exact hlen s.constraints st)
    · intro c hc sc hsc
      have hcne : c ≠ i := fun hh => hni (hh ▸ hc)
      rw [get?_set_ne' (Ne.symm hcne)]
      exact doneRelease_member s.rc.stat s.constraints st hnd c hc sc hsc

/-- Generous limits shared by the concrete two-scope heap below. -/
def c2Limit : BaseLimit :=
  { streams := 10, streamsInbound := 10, streamsOutbound := 10
    conns := 10, connsInbound := 10, connsOutbound := 10, fd := 10, memory := 4096 }

/-- A parent scope (index 0) and a leaf scope (index 1) constrained by it. -/
def c2St : St :=
  [mkDagScope c2Limit [], mkDagScope c2Limit [0]]

/-- The heap after the leaf reserves 100 bytes: both scopes charged. -/
def c2StAfter : St :=
  [{ mkDagScope c2Limit [] with rc := { newResources c2Limit with memory := 100 } },
   { mkDagScope c2Limit [0] with rc := { newResources c2Limit with memory := 100 } }]

/-- C2, witness: the conservation theorem applied to a concrete
reservation of 100 bytes on the two-scope heap. -/
theorem c2_conservation_witness :
    c2St[1]? = some (mkDagScope c2Limit [0]) ∧
    (mkDagScope c2Limit [0]).owner = none ∧
    (mkDagScope c2Limit [0]).constraints.Nodup ∧
    1 ∉ (mkDagScope c2Limit [0]).constraints ∧
    reserveMemoryScope 1 c2St 1 100 = some (c2StAfter, none) ∧
    (c2StAfter[1]? = some { mkDagScope c2Limit [0] with
        rc := { (mkDagScope c2Limit [0]).rc with
          memory := (mkDagScope c2Limit [0]).rc.memory + 100 } } ∧
     ∀ c ∈ (mkDagScope c2Limit [0]).constraints, ∀ sc, c2St[c]? = some sc →
       c2StAfter[c]? = some { sc with rc := { sc.rc with memory := sc.rc.memory + 100 } }) := by
  refine ⟨by decide, by decide, by decide, by decide, by decide, ?_⟩
  exact (c2_conservation c2St 1 (mkDagScope c2Limit [0]) 1 (by decide) (by decide)
    (by decide) (by decide)).1 100 c2StAfter (by decide)

/-! ### Claim C10 -/

/-- C10: after Done() returns, Stat() answers (no done-guard) and
reports the all-zero stat — Done zeroes every local counter, and an
already-done scope has zero counters whenever it became done through
Done itself. -/
theorem c10_stat_after_done (fuel : Nat) (st : St) (i : Nat) (s : Scope) (st' : St)
    (hs : st[i]? = some s) (hz : s.done = true → s.rc.stat = zeroStat)
    (h : doneScope fuel st i = some st') :
    statScope st' i = some zeroStat := by
  obtain ⟨sd, srf, src0, sow, scs⟩ := s
  simp only [doneScope] at h
  rw [hs] at h
  simp only at h
  by_cases hd : sd = true
  · rw [if_pos hd] at h
    simp only [Option.some.injEq] at h
    subst h
    unfold statScope
    rw [hs]
    simpa using hz (by simpa using hd)
  · rw [if_neg hd] at h
    rcases sow with _ | o
    · simp only at h
      rcases hg2 : (doneRelease (Resources.stat src0) st scs)[i]? with _ | s2
      · rw [hg2] at h; cases h
      · rw [hg2] at h
        simp only [Option.some.injEq] at h
        subst h
        unfold statScope
        rw [get?_set_self' (by simpa using list_get?_lt hg2)]
        simp [zeroCounters, Resources.stat, zeroStat]
    · simp only at h
      rcases hrel : releaseResourcesSt fuel st o (Resources.stat src0) with _ | st1
      · rw [hrel] at h; cases h
      · rw [hrel] at h
        simp only at h
        rcases hg2 : (decRef st1 o)[i]? with _ | s2
        · rw [hg2] at h; cases h
        · rw [hg2] at h
          simp only [Option.some.injEq] at h
          subst h
          unfold statScope
          rw [get?_set_self' (by simpa using list_get?_lt hg2)]
          simp [zeroCounters, Resources.stat, zeroStat]

/-- A one-scope heap for the C10 witness: a live root scope holding 64
bytes of memory. -/
def c10St : St :=
  [{ mkDagScope c2Limit [] with rc := { newResources c2Limit with memory := 64 } }]

/-- C10, witness: Done on the concrete scope, then Stat. -/
theorem c10_stat_after_done_witness :
    c10St[0]? = some { mkDagScope c2Limit [] with
      rc := { newResources c2Limit with memory := 64 } } ∧
    doneScope 1 c10St 0 = some [{ mkDagScope c2Limit [] with done := true }] ∧
    statScope [{ mkDagScope c2Limit [] with done := true }] 0 = some zeroStat := by
  refine ⟨by decide, by decide, ?_⟩
  exact c10_stat_after_done 1 c10St 0
    { mkDagScope c2Limit [] with rc := { newResources c2Limit with memory := 64 } }
    [{ mkDagScope c2Limit [] with done := true }]
    (by decide) (fun hh => by cases hh) (by decide)

/-! ### Claim C7 -/

/-- Limits with an 8192-byte memory cap: large enough that the zombie
transaction's second local reservation passes the local check and the
failure is decided by the closed owner. -/
def c7Limit : BaseLimit :=
  { streams := 10, streamsInbound := 10, streamsOutbound := 10
    conns := 10, connsInbound := 10, connsOutbound := 10, fd := 10, memory := 8192 }

/-- The parent scope S alone. -/
def c7St0 : St :=
  [mkDagScope c7Limit []]

/-- After `tx1 = S.begin_transaction()`. -/
def c7St1 : St :=
  [{ mkDagScope c7Limit [] with refCnt := 1 }, mkTxnScope c7Limit 0]

/-- After `tx2 = tx1.begin_transaction()`. -/
def c7St2 : St :=
  [{ mkDagScope c7Limit [] with refCnt := 1 },
   { mkTxnScope c7Limit 0 with refCnt := 1 },
   mkTxnScope c7Limit 1]

/-- After `tx2.reserve_memory(4096)`: charged on tx2, tx1 and S. -/
def c7St3 : St :=
  [{ mkDagScope c7Limit [] with
      refCnt := 1
      rc := { newResources c7Limit with memory := 4096 } },
   { mkTxnScope c7Limit 0 with
      refCnt := 1
      rc := { newResources c7Limit with memory := 4096 } },
   { mkTxnScope c7Limit 1 with rc := { newResources c7Limit with memory := 4096 } }]

/-- After `tx1.done()`: S released and deref'd, tx1 zeroed and done,
tx2 untouched (still holding its 4096). -/
def c7St4 : St :=
  [mkDagScope c7Limit [],
   { mkTxnScope c7Limit 0 with refCnt := 1, done := true },
   { mkTxnScope c7Limit 1 with rc := { newResources c7Limit with memory := 4096 } }]

/-- C7: the zombie-transaction scenario.  tx2.reserve_memory(4096)
charges S through the owner chain; tx1.done() releases S's charge; the
subsequent tx2.reserve_memory(4096) passes tx2's local check, hits the
done tx1, fails with ScopeClosed, and leaves tx2's local counters (and
the whole heap) unchanged. -/
theorem c7_zombie_txn :
    beginTransactionSt c7St0 0 = some (.ok (c7St1, 1)) ∧
    beginTransactionSt c7St1 1 = some (.ok (c7St2, 2)) ∧
    reserveMemoryScope 3 c7St2 2 4096 = some (c7St3, none) ∧
    statScope c7St3 0 = some { zeroStat with memory := 4096 } ∧
    doneScope 3 c7St3 1 = some c7St4 ∧
    statScope c7St4 0 = some zeroStat ∧
    reserveMemoryScope 3 c7St4 2 4096 = some (c7St4, some Err.scopeClosed) ∧
    statScope c7St4 2 = some { zeroStat with memory := 4096 } := by
  decide

/-! ### Claim C8: the allowlist (src/allowlist.go) -/

/-- Peer identities are opaque tokens. -/
abbrev PeerId := Nat

/-- A CIDR network: net.IPNet with the address and the mask as bit
patterns. -/
structure IPNet where
  ip : Nat
  mask : Nat
deriving DecidableEq, Repr

/-- net.IPNet.Contains: the candidate address masked with the network
mask equals the network address masked the same way. -/
def IPNet.containsIP (n : IPNet) (ip : Nat) : Bool :=
  ip.land n.mask == n.ip.land n.mask

/-- A multiaddr as the allowlist sees it: an opaque token whose only
relevant content is the IP that manet.ToIP extracts from it (none when
extraction fails). -/
structure Multiaddr where
  ip? : Option Nat
deriving DecidableEq, Repr

/-- manet.ToIP (src/allowlist.go:152, 177). -/
def toIP (ma : Multiaddr) : Option Nat :=
  ma.ip?

/-- The allowlist state (src/allowlist.go:15-27): open networks, and
networks gated by a peer identity.  The Go map from peer to networks is
an association list with distinct keys. -/
structure Allowlist where
  allowedNetworks : List IPNet
  allowedPeerByNetwork : List (PeerId × List IPNet)
deriving DecidableEq, Repr

/-- Map lookup `al.allowedPeerByNetwork[peerID]`. -/
def lookupPeerNets (m : List (PeerId × List IPNet)) (p : PeerId) : Option (List IPNet) :=
  (m.find? (fun kv => kv.1 == p)).map (fun kv => kv.2)

/-- allowlist.Allowed (src/allowlist.go:149-172): accept when any open
network contains the IP, or any peer-gated network of any peer contains
it; reject when no IP can be extracted. -/
def Allowlist.allowed (al : Allowlist) (ma : Multiaddr) : Bool :=
  match toIP ma with
  | none => false
  | some ip =>
    al.allowedNetworks.any (fun n => n.containsIP ip) ||
      al.allowedPeerByNetwork.any (fun kv => kv.2.any (fun n => n.containsIP ip))

/-- allowlist.AllowedPeerAndMultiaddr (src/allowlist.go:174-198): accept
when any open network contains the IP, or when the specific peer's gated
networks contain it. -/
def Allowlist.allowedPeerAndMultiaddr (al : Allowlist) (p : PeerId) (ma : Multiaddr) : Bool :=
  match toIP ma with
  | none => false
  | some ip =>
    al.allowedNetworks.any (fun n => n.containsIP ip) ||
      (match lookupPeerNets al.allowedPeerByNetwork p with
       | some nets => nets.any (fun n => n.containsIP ip)
       | none => false)

/-- With distinct keys, lookup of a member's key returns that member. -/
theorem lookupPeerNets_of_mem {m : List (PeerId × List IPNet)} {kv : PeerId × List IPNet}
    (hnd : (m.map Prod.fst).Nodup) (hm : kv ∈ m) :
    lookupPeerNets m kv.1 = some kv.2 := by
  induction m with
  | nil => cases hm
  | cons a tl ih =>
    rcases List.mem_cons.mp hm with heq | htl
    · subst heq
      unfold lookupPeerNets
      rw [List.find?_cons_of_pos _ (by simp)]
      rfl
    · have hnd' : (a.1 :: tl.map Prod.fst).Nodup := by
        rw [List.map_cons] at hnd
        exact hnd
      have ha : a.1 ∉ tl.map Prod.fst := (List.nodup_cons.mp hnd').1
      have hndtl : (tl.map Prod.fst).Nodup := (List.nodup_cons.mp hnd').2
      have hne : (a.1 == kv.1) = false := by
        apply beq_false_of_ne
        intro hh
        exact ha (hh ▸ List.mem_map_of_mem Prod.fst htl)
      unfold lookupPeerNets
      rw [List.find?_cons_of_neg _ (by simp [hne])]
      exact ih hndtl htl

/-- C8: `allowed` accepts exactly when an open network or some peer's
gated network contains the extracted IP; `allowed_peer_and_addr` accepts
exactly when an open network or the given peer's gated networks contain
it; hence (with the map keys distinct, as in a Go map) `allowed(a)`
holds exactly when some peer `P` makes `allowed_peer_and_addr(P, a)`
hold. -/
theorem c8_allowlist_equiv (al : Allowlist) (ma : Multiaddr)
    (hnd : (al.allowedPeerByNetwork.map Prod.fst).Nodup) :
    (al.allowed ma = true ↔ ∃ ip, toIP ma = some ip ∧
      ((∃ n ∈ al.allowedNetworks, n.containsIP ip = true) ∨
       (∃ kv ∈ al.allowedPeerByNetwork, ∃ n ∈ kv.2, n.containsIP ip = true))) ∧
    (∀ p, al.allowedPeerAndMultiaddr p ma = true ↔ ∃ ip, toIP ma = some ip ∧
      ((∃ n ∈ al.allowedNetworks, n.containsIP ip = true) ∨
       (∃ nets, lookupPeerNets al.allowedPeerByNetwork p = some nets ∧
         ∃ n ∈ nets, n.containsIP ip = true))) ∧
    (al.allowed ma = true ↔ ∃ p, al.allowedPeerAndMultiaddr p ma = true) := by
  have hchar1 : al.allowed ma = true ↔ ∃ ip, toIP ma = some ip ∧
      ((∃ n ∈ al.allowedNetworks, n.containsIP ip = true) ∨
       (∃ kv ∈ al.allowedPeerByNetwork, ∃ n ∈ kv.2, n.containsIP ip = true)) := by
    unfold Allowlist.allowed
    rcases hip : toIP ma with _ | ip
    · simp
    · simp only [Bool.or_eq_true, List.any_eq_true, Option.some.injEq]
      constructor
      · intro h
        exact ⟨ip, rfl, h⟩
      · intro ⟨ip', hip', h⟩
        cases hip'
        exact h
  have hchar2 : ∀ p, al.allowedPeerAndMultiaddr p ma = true ↔ ∃ ip, toIP ma = some ip ∧
      ((∃ n ∈ al.allowedNetworks, n.containsIP ip = true) ∨
       (∃ nets, lookupPeerNets al.allowedPeerByNetwork p = some nets ∧
         ∃ n ∈ nets, n.containsIP ip = true)) := by
    intro p
    unfold Allowlist.allowedPeerAndMultiaddr
    rcases hip : toIP ma with _ | ip
    · simp
    · simp only [Bool.or_eq_true, List.any_eq_true, Option.some.injEq]
      constructor
      · intro h
        refine ⟨ip, rfl, ?_⟩
        rcases h with h | h
        · exact Or.inl h
        · rcases hlk : lookupPeerNets al.allowedPeerByNetwork p with _ | nets
          · rw [hlk] at h
            simp at h
          · rw [hlk] at h
            have h' : (nets.any fun n => n.containsIP ip) = true := h
            exact Or.inr ⟨nets, rfl, by simpa using h'⟩
      · intro ⟨ip', hip', h⟩
        cases hip'
        rcases h with h | ⟨nets, hlk, h⟩
        · exact Or.inl h
        · refine Or.inr ?_
          rw [hlk]
          show (nets.any fun n => n.containsIP ip) = true
          simpa using h
  refine ⟨hchar1, hchar2, ?_⟩
  rw [hchar1]
  constructor
  · intro ⟨ip, hip, h⟩
    rcases h with h | ⟨kv, hkv, h⟩
    · exact ⟨0, (hchar2 0).mpr ⟨ip, hip, Or.inl h⟩⟩
    · exact ⟨kv.1, (hchar2 kv.1).mpr
        ⟨ip, hip, Or.inr ⟨kv.2, lookupPeerNets_of_mem hnd hkv, h⟩⟩⟩
  · intro ⟨p, hp⟩
    obtain ⟨ip, hip, h⟩ := (hchar2 p).mp hp
    refine ⟨ip, hip, ?_⟩
    rcases h with h | ⟨nets, hlk, h⟩
    · exact Or.inl h
    · unfold lookupPeerNets at hlk
      rcases hfind : al.allowedPeerByNetwork.find? (fun kv => kv.1 == p) with _ | kv
      · rw [hfind] at hlk; cases hlk
      · rw [hfind] at hlk
        have hlk' : kv.2 = nets := by
          have hsome : some kv.2 = some nets := hlk
          injection hsome
        subst hlk'
        exact Or.inr ⟨kv, List.mem_of_find?_eq_some hfind, h⟩

/-- A concrete allowlist: no open networks, one network gated by peer 1. -/
def c8Allowlist : Allowlist :=
  { allowedNetworks := []
    allowedPeerByNetwork := [(1, [{ ip := 8, mask := 248 }])] }

/-- C8, witness: the equivalence instantiated on the concrete allowlist
and an address inside the gated network. -/
theorem c8_allowlist_equiv_witness :
    (c8Allowlist.allowedPeerByNetwork.map Prod.fst).Nodup ∧
    (c8Allowlist.allowed { ip? := some 10 } = true ↔
      ∃ p, c8Allowlist.allowedPeerAndMultiaddr p { ip? := some 10 } = true) ∧
    c8Allowlist.allowed { ip? := some 10 } = true ∧
    c8Allowlist.allowedPeerAndMultiaddr 1 { ip? := some 10 } = true ∧
    c8Allowlist.allowedPeerAndMultiaddr 2 { ip? := some 10 } = false := by
  refine ⟨by decide, ?_, by decide, by decide, by decide⟩
  exact (c8_allowlist_equiv c8Allowlist { ip? := some 10 } (by decide)).2.2

/-! ### Claim C5: pressure levels (spec-modelled)

The snapshot whose `checkMemory` returns a pressure level is not among
the sources; only its unit tests survive (src/unnamed/part_005, which
exercises `network.MemoryStatus`).  The definitions below are modelled
from the spec, with the thresholds calibrated so that every checkpoint
of those tests is reproduced (see
`checkMemoryStatus_matches_part005_tests`): with cap 4096 the tests pin
OK at 1024 and 2048, CAUTION at 3072, CRITICAL at 3584 and 4096, which
rules out the spec's "at least 50% / at least 90%" readings. -/

/-- network.MemoryStatus. -/
inductive MemoryStatus where
  | ok
  | caution
  | critical
deriving DecidableEq, Repr

/-- Numeric severity of a pressure level. -/
def MemoryStatus.level : MemoryStatus → Nat
  | .ok => 0
  | .caution => 1
  | .critical => 2

/-- The more severe of two pressure levels. -/
def statusMax (a b : MemoryStatus) : MemoryStatus :=
  if a.level ≤ b.level then b else a

/-- Modelled from the spec: `check_memory(delta)` returning a pressure
level — the overflow and cap checks of src/scope.go:67-80, then
CRITICAL when more than 80% of the cap would be used and CAUTION when
more than 50% would be (exact thresholds fixed by the part_005 tests). -/
def Resources.checkMemoryStatus (rc : Resources) (rsvp : Int) : Except Err MemoryStatus :=
  let newmem := wrap64 (rc.memory + rsvp)
  if newmem < rc.memory then
    .error .memoryOverflow
  else if newmem > rc.limit.getMemoryLimit then
    .error .limitExceeded
  else if 5 * newmem > 4 * rc.limit.getMemoryLimit then
    .ok .critical
  else if 2 * newmem > rc.limit.getMemoryLimit then
    .ok .caution
  else
    .ok .ok

/-- Modelled from the spec: `reserve_memory(delta)` — run the check, on
success commit and return the pressure level. -/
def Resources.reserveMemoryStatus (rc : Resources) (size : Int) :
    Except Err (MemoryStatus × Resources) :=
  match rc.checkMemoryStatus size with
  | .error e => .error e
  | .ok status => .ok (status, { rc with memory := rc.memory + size })

/-- Modelled from the spec: `reserve_memory_for_child` with a status. -/
def reserveMemoryForChildStatus (st : St) (c : Nat) (size : Int) :
    Option (Except Err (MemoryStatus × St)) :=
  match st[c]? with
  | none => none
  | some s =>
    if s.done then some (.error .scopeClosed)
    else
      match s.rc.reserveMemoryStatus size with
      | .error e => some (.error e)
      | .ok (status, rc') => some (.ok (status, st.set c { s with rc := rc' }))

/-- Modelled from the spec: the constraint charging loop, collecting the
pressure level each constraint reported. -/
def chargeListStatus (st : St) (csts : List Nat) (size : Int) :
    Option (St × Nat × List MemoryStatus × Option Err) :=
  match csts with
  | [] => some (st, 0, [], none)
  | c :: rest =>
    match reserveMemoryForChildStatus st c size with
    | none => none
    | some (.error e) => some (st, 0, [], some e)
    | some (.ok (status, st1)) =>
      match chargeListStatus st1 rest size with
      | none => none
      | some (st2, n, sts, err) => some (st2, n + 1, status :: sts, err)

/-- Modelled from the spec: scope-level `reserve_memory` on a DAG scope
— local reserve, charge each constraint in order with rollback on
failure, and on success return the maximum pressure level across the
leaf and all charged constraints. -/
def reserveMemoryScopeStatus (st : St) (i : Nat) (size : Int) :
    Option (St × Except Err MemoryStatus) :=
  match st[i]? with
  | none => none
  | some s =>
    if s.done then some (st, .error .scopeClosed)
    else
      match s.rc.reserveMemoryStatus size with
      | .error e => some (st, .error e)
      | .ok (s0, rc') =>
        let st1 := st.set i { s with rc := rc' }
        match chargeListStatus st1 s.constraints size with
        | none => none
        | some (st2, n, _, some e) =>
          let st3 := releaseList (fun rc => rc.releaseMemory size) st2
            (s.constraints.take n)
          match st3[i]? with
          | none => none
          | some s3 => some (st3.set i { s3 with rc := s3.rc.releaseMemory size }, .error e)
        | some (st2, _, sts, none) => some (st2, .ok (sts.foldl statusMax s0))

/-- The pressure level the scope at `c` would report for `d` more bytes
in heap `st` (OK when the index dangles or the check fails). -/
def scopeStatusAt (st : St) (d : Int) (c : Nat) : MemoryStatus :=
  match st[c]? with
  | none => .ok
  | some s =>
    match s.rc.checkMemoryStatus d with
    | .ok status => status
    | .error _ => .ok

/-- The fresh counter record with cap 4096 used by the C5 section. -/
def c5Rc : Resources :=
  newResources { streams := 1, streamsInbound := 1, streamsOutbound := 1
                 conns := 1, connsInbound := 1, connsOutbound := 1
                 fd := 1, memory := 4096 }

/-- The modelled check reproduces every status checkpoint of the
repository's own unit tests (src/unnamed/part_005, cap 4096). -/
theorem checkMemoryStatus_matches_part005_tests :
    c5Rc.checkMemoryStatus 1024 = .ok .ok ∧
    c5Rc.checkMemoryStatus 2048 = .ok .ok ∧
    c5Rc.checkMemoryStatus 3072 = .ok .caution ∧
    c5Rc.checkMemoryStatus 4096 = .ok .critical ∧
    c5Rc.checkMemoryStatus 8192 = .error .limitExceeded ∧
    ({ c5Rc with memory := 1024 } : Resources).checkMemoryStatus 1024 = .ok .ok ∧
    ({ c5Rc with memory := 2048 } : Resources).checkMemoryStatus 1024 = .ok .caution ∧
    ({ c5Rc with memory := 3072 } : Resources).checkMemoryStatus 512 = .ok .critical ∧
    ({ c5Rc with memory := 3584 } : Resources).checkMemoryStatus 4096 =
      .error .limitExceeded ∧
    ({ c5Rc with memory := 1024 } : Resources).checkMemoryStatus 2048 = .ok .caution := by
  refine ⟨by decide, by decide, by decide, by decide, by decide,
    by decide, by decide, by decide, by decide, by decide⟩

/-- C5, counterexample.  At exactly 50% of the cap (2048 of 4096) the
status is OK, not CAUTION as "at least 50%" requires; and at 87.5%
(3584 of 4096) the status is already CRITICAL although 87.5% < 90%.
Both points are pinned by the repository's part_005 tests. -/
theorem c5_pressure_thresholds_cex :
    (c5Rc.checkMemoryStatus 2048 = .ok .ok ∧ 2 * ((2048 : Int)) ≥ 4096) ∧
    (c5Rc.checkMemoryStatus 3584 = .ok .critical ∧ 10 * ((3584 : Int)) < 9 * 4096) := by
  refine ⟨⟨by decide, by decide⟩, ⟨by decide, by decide⟩⟩

theorem reserveMemoryStatus_ok {rc : Resources} {d : Int} {status : MemoryStatus}
    {rc' : Resources} (h : rc.reserveMemoryStatus d = .ok (status, rc')) :
    rc.checkMemoryStatus d = .ok status ∧ rc' = { rc with memory := rc.memory + d } := by
  unfold Resources.reserveMemoryStatus at h
  rcases hc : rc.checkMemoryStatus d with e | status'
  · rw [hc] at h; cases h
  · rw [hc] at h
    simp only [Except.ok.injEq, Prod.mk.injEq] at h
    obtain ⟨h1, h2⟩ := h
    subst h1
    subst h2
    exact ⟨rfl, rfl⟩

/-- In a successful status-charging loop over distinct constraints, the
collected statuses are exactly the ones each constraint computes on its
pre-call state. -/
theorem chargeListStatus_ok_sts {d : Int} (stRef : St) :
    ∀ (csts : List Nat) (stX st2 : St) (n : Nat) (sts : List MemoryStatus),
      csts.Nodup → (∀ c ∈ csts, stX[c]? = stRef[c]?) →
      chargeListStatus stX csts d = some (st2, n, sts, none) →
      sts = csts.map (scopeStatusAt stRef d) := by
  intro csts
  induction csts with
  | nil =>
    intro stX st2 n sts _ _ h
    simp only [chargeListStatus, Option.some.injEq, Prod.mk.injEq] at h
    obtain ⟨-, -, h3, -⟩ := h
    rw [← h3]
    rfl
  | cons c rest ih =>
    intro stX st2 n sts hnd hagree h
    have hc0r : c ∉ rest := (List.nodup_cons.mp hnd).1
    have hndr : rest.Nodup := (List.nodup_cons.mp hnd).2
    simp only [chargeListStatus] at h
    rcases hstep : reserveMemoryForChildStatus stX c d with _ | res
    · rw [hstep] at h; cases h
    · rw [hstep] at h
      rcases res with e | p
      · simp at h
      · obtain ⟨status, st1⟩ := p
        simp only at h
        rcases hrest : chargeListStatus st1 rest d with _ | q
        · rw [hrest] at h; cases h
        · obtain ⟨st2', n', sts', err'⟩ := q
          rw [hrest] at h
          simp only [Option.some.injEq, Prod.mk.injEq] at h
          obtain ⟨-, -, h3, h4⟩ := h
          rcases err' with _ | e''
          · subst h3
            -- head status comes from the scope's own check on stRef
            unfold reserveMemoryForChildStatus at hstep
            rcases hg : stX[c]? with _ | sc
            · rw [hg] at hstep; cases hstep
            · rw [hg] at hstep
              simp only at hstep
              by_cases hd : sc.done = true
              · rw [if_pos hd] at hstep; cases hstep
              · rw [if_neg hd] at hstep
                rcases hres : sc.rc.reserveMemoryStatus d with e0 | pr
                · rw [hres] at hstep; cases hstep
                · obtain ⟨status0, rc0⟩ := pr
                  rw [hres] at hstep
                  simp only [Option.some.injEq, Except.ok.injEq, Prod.mk.injEq] at hstep
                  obtain ⟨hst0, hst1⟩ := hstep
                  subst hst0
                  obtain ⟨hchk, hrc0⟩ := reserveMemoryStatus_ok hres
                  have hsts' : sts' = rest.map (scopeStatusAt stRef d) := by
                    refine ih st1 st2' n' sts' hndr ?_ hrest
                    intro c' hc'
                    have hne : c' ≠ c := fun hh => hc0r (hh ▸ hc')
                    rw [← hst1, get?_set_ne' (Ne.symm hne)]
                    exact hagree c' (List.mem_cons_of_mem c hc')
                  rw [List.map_cons, ← hsts']
                  have hgr : stRef[c]? = some sc := by
                    rw [← hagree c (List.mem_cons_self c rest), hg]
                  have hstat : scopeStatusAt stRef d c = status0 := by
                    unfold scopeStatusAt
                    rw [hgr]
                    simp only
                    rw [hchk]
                  rw [hstat]
          · cases h4

/-- C5, amended.  The modelled check fails with the overflow flavour
exactly on negative deltas and int64 overflow, fails with LIMIT_EXCEEDED
exactly when `memory + delta` would exceed the cap, and otherwise
returns CRITICAL when strictly more than 80% of the cap would be used,
CAUTION when strictly more than 50% would be, and OK below that (not
the "at least 50% / at least 90%" of the original claim); `statusMax`
is the maximum of severity levels; and a successful scope-level
reserve_memory returns the fold of `statusMax` over the leaf's own
level and the level each charged constraint reports. -/
theorem c5_pressure_amended (rc : Resources) (d : Int)
    (hm0 : 0 ≤ rc.memory) (hmW : rc.memory < 2 ^ 63)
    (hd1 : -(2 ^ 63) ≤ d) (hd2 : d < 2 ^ 63) :
    (rc.checkMemoryStatus d = .error .memoryOverflow ↔
      (d < 0 ∨ 2 ^ 63 ≤ rc.memory + d)) ∧
    (0 ≤ d → rc.memory + d < 2 ^ 63 →
      (rc.checkMemoryStatus d = .error .limitExceeded ↔
        rc.memory + d > rc.limit.getMemoryLimit)) ∧
    (0 ≤ d → rc.memory + d < 2 ^ 63 → rc.memory + d ≤ rc.limit.getMemoryLimit →
      rc.checkMemoryStatus d = .ok
        (if 5 * (rc.memory + d) > 4 * rc.limit.getMemoryLimit then .critical
         else if 2 * (rc.memory + d) > rc.limit.getMemoryLimit then .caution
         else .ok)) ∧
    (∀ a b, (statusMax a b).level = max a.level b.level) ∧
    (∀ st i s st' status, st[i]? = some s → s.constraints.Nodup →
      i ∉ s.constraints →
      reserveMemoryScopeStatus st i d = some (st', .ok status) →
      status = (s.constraints.map (scopeStatusAt st d)).foldl statusMax
        (scopeStatusAt st d i)) := by
  refine ⟨?_, ?_, ?_, ?_, ?_⟩
  · unfold Resources.checkMemoryStatus
    simp only
    rw [← checkMemory_overflow_iff rc d hm0 hmW hd1 hd2]
    by_cases hlt : wrap64 (rc.memory + d) < rc.memory
    · rw [if_pos hlt]
      simp [hlt]
    · rw [if_neg hlt]
      constructor
      · intro hh
        split at hh
        · cases hh
        · split at hh
          · cases hh
          · split at hh <;> cases hh
      · intro hh
        exact absurd hh hlt
  · intro hdge hsum
    have hw : wrap64 (rc.memory + d) = rc.memory + d := wrap64_of_mem (by omega) hsum
    unfold Resources.checkMemoryStatus
    simp only [hw]
    rw [if_neg (by omega)]
    by_cases hcap : rc.memory + d > rc.limit.getMemoryLimit
    · rw [if_pos hcap]
      simp [hcap]
    · rw [if_neg hcap]
      constructor
      · intro hh
        split at hh
        · cases hh
        · split at hh <;> cases hh
      · intro hh
        exact absurd hh hcap
  · intro hdge hsum hcap
    have hw : wrap64 (rc.memory + d) = rc.memory + d := wrap64_of_mem (by omega) hsum
    unfold Resources.checkMemoryStatus
    simp only [hw]
    rw [if_neg (by omega), if_neg (by omega)]
    split_ifs <;> rfl
  · intro a b
    cases a <;> cases b <;> decide
  · intro st i s st' status hs hnd hni h
    simp only [reserveMemoryScopeStatus] at h
    rw [hs] at h
    simp only at h
    by_cases hd : s.done = true
    · rw [if_pos hd] at h
      simp at h
    · rw [if_neg hd] at h
      rcases hres : s.rc.reserveMemoryStatus d with e0 | pr
      · rw [hres] at h
        simp at h
      · obtain ⟨s0, rc'⟩ := pr
        rw [hres] at h
        simp only at h
        rcases hch : chargeListStatus (st.set i { s with rc := rc' }) s.constraints d
          with _ | q
        · rw [hch] at h; cases h
        · obtain ⟨st2, n, sts, err⟩ := q
          rw [hch] at h
          rcases err with _ | e2
          · simp only [Option.some.injEq, Prod.mk.injEq, Except.ok.injEq] at h
            obtain ⟨-, h2⟩ := h
            subst h2
            obtain ⟨hchk, -⟩ := reserveMemoryStatus_ok hres
            have hsts : sts = s.constraints.map (scopeStatusAt st d) := by
              refine chargeListStatus_ok_sts st s.constraints _ st2 n sts hnd ?_ hch
              intro c hc
              have hne : c ≠ i := fun hh => hni (hh ▸ hc)
              exact get?_set_ne' (Ne.symm hne)
            have hs0 : s0 = scopeStatusAt st d i := by
              unfold scopeStatusAt
              rw [hs]
              simp only
              rw [hchk]
            rw [hsts, hs0]
          · simp only at h
            rcases hg3 : (releaseList (fun rc => rc.releaseMemory d) st2
                (s.constraints.take n))[i]? with _ | s3
            · rw [hg3] at h; cases h
            · rw [hg3] at h
              simp at h

/-- A two-scope heap for the C5 witness: a nearly-full parent (3000 of
4096 used) and an empty leaf constrained by it. -/
def c5St : St :=
  [{ mkDagScope { streams := 1, streamsInbound := 1, streamsOutbound := 1
                  conns := 1, connsInbound := 1, connsOutbound := 1
                  fd := 1, memory := 4096 } [] with
      rc := { c5Rc with memory := 3000 } },
   mkDagScope { streams := 1, streamsInbound := 1, streamsOutbound := 1
                conns := 1, connsInbound := 1, connsOutbound := 1
                fd := 1, memory := 4096 } [0]]

/-- The heap after the C5 witness reservation. -/
def c5StAfter : St :=
  [{ mkDagScope { streams := 1, streamsInbound := 1, streamsOutbound := 1
                  conns := 1, connsInbound := 1, connsOutbound := 1
                  fd := 1, memory := 4096 } [] with
      rc := { c5Rc with memory := 3500 } },
   { mkDagScope { streams := 1, streamsInbound := 1, streamsOutbound := 1
                  conns := 1, connsInbound := 1, connsOutbound := 1
                  fd := 1, memory := 4096 } [0] with
      rc := { c5Rc with memory := 500 } }]

/-- C5, witness: reserving 500 bytes on the leaf returns CRITICAL — the
max of the leaf's own OK (500 of 4096) and the parent's CRITICAL
(3500 of 4096, more than 80%). -/
theorem c5_pressure_amended_witness :
    (c5Rc.checkMemoryStatus 2048 = .ok .ok) ∧
    (reserveMemoryScopeStatus c5St 1 500 = some (c5StAfter, .ok .critical)) ∧
    ((0 : Int) ≤ c5Rc.memory ∧ c5Rc.memory < 2 ^ 63 ∧
      -(2 ^ 63) ≤ (2048 : Int) ∧ (2048 : Int) < 2 ^ 63) ∧
    (c5Rc.checkMemoryStatus 2048 = .error .memoryOverflow ↔
      ((2048 : Int) < 0 ∨ 2 ^ 63 ≤ c5Rc.memory + 2048)) := by
  refine ⟨by decide, by decide, ⟨by decide, by decide, by decide, by decide⟩, ?_⟩
  exact (c5_pressure_amended c5Rc 2048 (by decide) (by decide) (by decide) (by decide)).1

/-! ### Claim C4: re-parenting (src/unnamed/part_017) -/

/-- Addition of a whole stat to the counters: the effect of a successful
ReserveForChild. -/
def addStat (rc : Resources) (stat : ScopeStat) : Resources :=
  { rc with memory := rc.memory + stat.memory
            nstreamsIn := rc.nstreamsIn + stat.numStreamsInbound
            nstreamsOut := rc.nstreamsOut + stat.numStreamsOutbound
            nconnsIn := rc.nconnsIn + stat.numConnsInbound
            nconnsOut := rc.nconnsOut + stat.numConnsOutbound
            nfd := rc.nfd + stat.numFD }

theorem subtractStat_addStat (rc : Resources) (stat : ScopeStat) :
    subtractStat (addStat rc stat) stat = rc := by
  cases rc
  unfold subtractStat addStat Resources.releaseMemory Resources.removeStreams
    Resources.removeConns Resources.removeFD
  simp

theorem addStreams_cancel {rc rc' : Resources} {i o : Int}
    (h : rc.addStreams i o = .ok rc') : rc'.removeStreams i o = rc := by
  rw [addStreams_ok_iff] at h
  obtain ⟨-, -, h3⟩ := h
  subst h3
  unfold Resources.removeStreams
  cases rc
  simp

theorem addConns_cancel {rc rc' : Resources} {i o : Int}
    (h : rc.addConns i o = .ok rc') : rc'.removeConns i o = rc := by
  rw [addConns_ok_iff] at h
  obtain ⟨-, -, h3⟩ := h
  subst h3
  unfold Resources.removeConns
  cases rc
  simp

theorem addFD_cancel {rc rc' : Resources} {n : Int}
    (h : rc.addFD n = .ok rc') : rc'.removeFD n = rc := by
  rw [addFD_ok_iff] at h
  obtain ⟨-, h2⟩ := h
  subst h2
  unfold Resources.removeFD
  cases rc
  simp

theorem incRef_some {st : St} {p : Nat} {sp : Scope} (h : st[p]? = some sp) :
    incRef st p = st.set p { sp with refCnt := sp.refCnt + 1 } := by
  unfold incRef
  rw [h]

theorem decRef_some {st : St} {p : Nat} {sp : Scope} (h : st[p]? = some sp) :
    decRef st p = st.set p { sp with refCnt := sp.refCnt - 1 } := by
  unfold decRef
  rw [h]

theorem incRef_none {st : St} {p : Nat} (h : st[p]? = none) : incRef st p = st := by
  unfold incRef
  rw [h]

theorem decRef_none {st : St} {p : Nat} (h : st[p]? = none) : decRef st p = st := by
  unfold decRef
  rw [h]

theorem decRef_incRef (st : St) (p : Nat) : decRef (incRef st p) p = st := by
  rcases h : st[p]? with _ | sp
  · rw [incRef_none h, decRef_none h]
  · rw [incRef_some h]
    have hlt : p < st.length := list_get?_lt h
    rw [decRef_some (get?_set_self' (by simpa using hlt))]
    rw [List.set_set]
    have hsp : { sp with refCnt := sp.refCnt + 1 - 1 } = sp := by
      cases sp
      simp
    rw [hsp]
    exact list_set_id h

/-- A failed ReserveForChild leaves the scope untouched: the staged
rollbacks cancel exactly. -/
theorem reserveForChildSt_err {st : St} {i : Nat} {stat : ScopeStat} {st' : St} {e : Err}
    (h : reserveForChildSt st i stat = some (st', some e)) : st' = st := by
  unfold reserveForChildSt at h
  rcases hg : st[i]? with _ | s
  · rw [hg] at h; cases h
  · rw [hg] at h
    simp only at h
    by_cases hd : s.done = true
    · rw [if_pos hd] at h
      simp only [Option.some.injEq, Prod.mk.injEq] at h
      exact h.1.symm
    · rw [if_neg hd] at h
      rcases h1 : s.rc.reserveMemory stat.memory with e1 | rc1
      · rw [h1] at h
        simp only [Option.some.injEq, Prod.mk.injEq] at h
        exact h.1.symm
      · rw [h1] at h
        simp only at h
        have hmem : rc1.releaseMemory stat.memory = s.rc :=
          cancel_reserveMemory stat.memory s.rc rc1 h1
        rcases h2 : rc1.addStreams stat.numStreamsInbound stat.numStreamsOutbound
          with e2 | rc2
        · rw [h2] at h
          simp only [Option.some.injEq, Prod.mk.injEq] at h
          rw [← h.1, hmem]
          have hss : { s with rc := s.rc } = s := by cases s; rfl
          rw [hss]
          exact list_set_id hg
        · rw [h2] at h
          simp only at h
          have hstr : rc2.removeStreams stat.numStreamsInbound stat.numStreamsOutbound
              = rc1 := addStreams_cancel h2
          rcases h3 : rc2.addConns stat.numConnsInbound stat.numConnsOutbound
            with e3 | rc3
          · rw [h3] at h
            simp only [Option.some.injEq, Prod.mk.injEq] at h
            rw [← h.1, hstr, hmem]
            have hss : { s with rc := s.rc } = s := by cases s; rfl
            rw [hss]
            exact list_set_id hg
          · rw [h3] at h
            simp only at h
            have hcon : rc3.removeConns stat.numConnsInbound stat.numConnsOutbound
                = rc2 := addConns_cancel h3
            rcases h4 : rc3.addFD stat.numFD with e4 | rc4
            · rw [h4] at h
              simp only [Option.some.injEq, Prod.mk.injEq] at h
              rw [← h.1, hcon, hstr, hmem]
              have hss : { s with rc := s.rc } = s := by cases s; rfl
              rw [hss]
              exact list_set_id hg
            · rw [h4] at h
              simp at h

/-- A successful ReserveForChild commits the whole stat on a live scope. -/
theorem reserveForChildSt_ok {st : St} {i : Nat} {stat : ScopeStat} {st' : St}
    (h : reserveForChildSt st i stat = some (st', none)) :
    ∃ s, st[i]? = some s ∧ s.done = false ∧
      st' = st.set i { s with rc := addStat s.rc stat } := by
  unfold reserveForChildSt at h
  rcases hg : st[i]? with _ | s
  · rw [hg] at h; cases h
  · rw [hg] at h
    simp only at h
    by_cases hd : s.done = true
    · rw [if_pos hd] at h
      simp at h
    · rw [if_neg hd] at h
      rcases h1 : s.rc.reserveMemory stat.memory with e1 | rc1
      · rw [h1] at h; simp at h
      · rw [h1] at h
        simp only at h
        rcases h2 : rc1.addStreams stat.numStreamsInbound stat.numStreamsOutbound
          with e2 | rc2
        · rw [h2] at h; simp at h
        · rw [h2] at h
          simp only at h
          rcases h3 : rc2.addConns stat.numConnsInbound stat.numConnsOutbound
            with e3 | rc3
          · rw [h3] at h; simp at h
          · rw [h3] at h
            simp only at h
            rcases h4 : rc3.addFD stat.numFD with e4 | rc4
            · rw [h4] at h; simp at h
            · rw [h4] at h
              simp only [Option.some.injEq, Prod.mk.injEq] at h
              refine ⟨s, rfl, by simpa using hd, ?_⟩
              rw [← h.1]
              have hshape : rc4 = addStat s.rc stat := by
                have e1 := reserveMemory_ok_shape h1
                have e2 := (addStreams_ok_iff _ _ _ _).mp h2
                have e3 := (addConns_ok_iff _ _ _ _).mp h3
                have e4 := (addFD_ok_iff _ _ _).mp h4
                rw [e4.2, e3.2.2, e2.2.2, e1]
                unfold addStat
                cases s.rc
                simp
              rw [hshape]

/-- ReleaseForChild on a live scope subtracts the stat. -/
theorem releaseForChildSt_live {st : St} {c : Nat} {sc : Scope} {stat : ScopeStat}
    (h : st[c]? = some sc) (hd : sc.done = false) :
    releaseForChildSt st c stat = st.set c { sc with rc := subtractStat sc.rc stat } := by
  unfold releaseForChildSt releaseForChildG
  rw [h]
  simp only
  rw [if_neg (by simp [hd])]

/-- The common skeleton of connectionScope.SetPeer and
streamScope.SetProtocol (src/unnamed/part_017:732-760 and 768-798) once
the already-attached guard has passed: look up the new parent scope
(IncRef), bulk-reserve the current stat on it — on failure DecRef it
and report without further changes — then release the stat from the old
parent, DecRef it, and install the new constraints list. -/
def reparent (st : St) (scopeIdx newParent oldParent : Nat) (newCsts : List Nat) :
    Option (St × Option Err) :=
  let st0 := incRef st newParent
  match st0[scopeIdx]? with
  | none => none
  | some s =>
    let stat := s.rc.stat
    match reserveForChildSt st0 newParent stat with
    | none => none
    | some (st1, some e) => some (decRef st1 newParent, some e)
    | some (st1, none) =>
      let st2 := decRef (releaseForChildSt st1 oldParent stat) oldParent
      match st2[scopeIdx]? with
      | none => none
      | some s2 => some (st2.set scopeIdx { s2 with constraints := newCsts }, none)

/-- A connection scope handle: the underlying resourceScope index and
the attached peer (connectionScope of part_017). -/
structure ConnScope where
  scope : Nat
  peer : Option Nat
deriving DecidableEq, Repr

/-- A stream scope handle (streamScope of part_017): the underlying
resourceScope index, the peer fixed at creation, and the attached
protocol and service. -/
structure StreamScope where
  scope : Nat
  peerId : Nat
  proto : Option Nat
  svc : Option Nat
deriving DecidableEq, Repr

/-- connectionScope.SetPeer (src/unnamed/part_017:732-760): refuse when
already attached, otherwise move the stat from the transient scope to
the peer scope and set constraints to [peer, system]. -/
def setPeer (st : St) (conn : ConnScope) (p transient sys : Nat) :
    Option (St × ConnScope × Option Err) :=
  match conn.peer with
  | some _ => some (st, conn, some .alreadyAttached)
  | none =>
    match reparent st conn.scope p transient [p, sys] with
    | none => none
    | some (st', some e) => some (st', conn, some e)
    | some (st', none) => some (st', { conn with peer := some p }, none)

/-- streamScope.SetProtocol (src/unnamed/part_017:768-798): refuse when
already attached, otherwise move the stat from the transient scope to
the protocol scope and set constraints to [peer, protocol, system]. -/
def setProtocol (st : St) (stream : StreamScope) (pr transient sys : Nat) :
    Option (St × StreamScope × Option Err) :=
  match stream.proto with
  | some _ => some (st, stream, some .alreadyAttached)
  | none =>
    match reparent st stream.scope pr transient [stream.peerId, pr, sys] with
    | none => none
    | some (st', some e) => some (st', stream, some e)
    | some (st', none) => some (st', { stream with proto := some pr }, none)

/-- streamScope.SetService (src/unnamed/part_017:806-857): refuse when
already attached to a service or not yet attached to a protocol; reserve
the stat on the service scope, then on the per-service-peer sub-scope
when one exists (`peerSvc`, IncRef'd at lookup like the Go
getPeerScope), rolling back the service charge if that second reserve
fails; on success release the stat from the protocol scope, DecRef it,
and install constraints [peer, peer-service?, service, system]. -/
def setService (st : St) (stream : StreamScope) (svcIdx : Nat)
    (peerSvc : Option Nat) (sys : Nat) :
    Option (St × StreamScope × Option Err) :=
  match stream.svc with
  | some _ => some (st, stream, some .alreadyAttached)
  | none =>
    match stream.proto with
    | none => some (st, stream, some .notAttached)
    | some pr =>
      match peerSvc with
      | none =>
        match reparent st stream.scope svcIdx pr [stream.peerId, svcIdx, sys] with
        | none => none
        | some (st', some e) => some (st', stream, some e)
        | some (st', none) => some (st', { stream with svc := some svcIdx }, none)
      | some q =>
        let st0 := incRef st svcIdx
        match st0[stream.scope]? with
        | none => none
        | some s =>
          let stat := s.rc.stat
          match reserveForChildSt st0 svcIdx stat with
          | none => none
          | some (st1, some e) => some (decRef st1 svcIdx, stream, some e)
          | some (st1, none) =>
            let st1q := incRef st1 q
            match reserveForChildSt st1q q stat with
            | none => none
            | some (st2, some e) =>
              some (decRef (decRef (releaseForChildSt st2 svcIdx stat) svcIdx) q,
                stream, some e)
            | some (st2, none) =>
              let st3 := decRef (releaseForChildSt st2 pr stat) pr
              match st3[stream.scope]? with
              | none => none
              | some s3 =>
                some (st3.set stream.scope
                  { s3 with constraints := [stream.peerId, q, svcIdx, sys] },
                  { stream with svc := some svcIdx }, none)

/-- A failed re-parent restores the heap exactly. -/
theorem reparent_err {st : St} {i np op : Nat} {cs : List Nat} {st' : St} {e : Err}
    (h : reparent st i np op cs = some (st', some e)) : st' = st := by
  unfold reparent at h
  simp only at h
  rcases hg : (incRef st np)[i]? with _ | s
  · rw [hg] at h; cases h
  · rw [hg] at h
    simp only at h
    rcases hrfc : reserveForChildSt (incRef st np) np s.rc.stat with _ | p
    · rw [hrfc] at h; cases h
    · obtain ⟨st1, err⟩ := p
      rw [hrfc] at h
      rcases err with _ | e1
      · simp only at h
        rcases hg2 : (decRef (releaseForChildSt st1 op s.rc.stat) op)[i]? with _ | s2
        · rw [hg2] at h; cases h
        · rw [hg2] at h
          simp at h
      · simp only [Option.some.injEq, Prod.mk.injEq] at h
        rw [← h.1, reserveForChildSt_err hrfc]
        exact decRef_incRef st np

/-- A successful re-parent: the new parent is charged the scope's stat
(and IncRef'd), the old parent is released (and DecRef'd), the scope's
constraints list becomes the new one, and nothing else changes. -/
theorem reparent_ok {st : St} {i np op : Nat} {cs : List Nat} {st' : St}
    {s sp sop : Scope}
    (hi : st[i]? = some s) (hnp : st[np]? = some sp) (hop : st[op]? = some sop)
    (hopd : sop.done = false)
    (hinp : i ≠ np) (hiop : i ≠ op) (hnpop : np ≠ op)
    (h : reparent st i np op cs = some (st', none)) :
    st'[np]? = some { sp with refCnt := sp.refCnt + 1, rc := addStat sp.rc s.rc.stat } ∧
    st'[op]? = some { sop with refCnt := sop.refCnt - 1, rc := subtractStat sop.rc s.rc.stat } ∧
    st'[i]? = some { s with constraints := cs } ∧
    (∀ j, j ≠ i → j ≠ np → j ≠ op → st'[j]? = st[j]?) := by
  have h0 : incRef st np = st.set np { sp with refCnt := sp.refCnt + 1 } :=
    incRef_some hnp
  have hltnp : np < st.length := list_get?_lt hnp
  have hg : (incRef st np)[i]? = some s := by
    rw [h0, get?_set_ne' (Ne.symm hinp)]
    exact hi
  unfold reparent at h
  simp only at h
  rw [hg] at h
  simp only at h
  rcases hrfc : reserveForChildSt (incRef st np) np s.rc.stat with _ | p
  · rw [hrfc] at h; cases h
  · obtain ⟨st1, err⟩ := p
    rw [hrfc] at h
    rcases err with _ | e1
    · simp only at h
      obtain ⟨s', hs', hsd', hst1⟩ := reserveForChildSt_ok hrfc
      rw [h0, get?_set_self' (by simpa using hltnp)] at hs'
      have hs'eq : s' = { sp with refCnt := sp.refCnt + 1 } := by
        injection hs' with hh
        exact hh.symm
      subst hs'eq
      rw [h0, List.set_set] at hst1
      simp only at hst1
      -- st1 = st.set np { sp with refCnt+1, rc := addStat sp.rc stat }
      have hst1op : st1[op]? = some sop := by
        rw [hst1, get?_set_ne' hnpop]
        exact hop
      have hrel : releaseForChildSt st1 op s.rc.stat =
          st1.set op { sop with rc := subtractStat sop.rc s.rc.stat } :=
        releaseForChildSt_live hst1op hopd
      have hltop1 : op < st1.length := list_get?_lt hst1op
      have hst2 : decRef (releaseForChildSt st1 op s.rc.stat) op =
          st1.set op { sop with refCnt := sop.refCnt - 1, rc := subtractStat sop.rc s.rc.stat } := by
        rw [hrel, decRef_some (get?_set_self' (by simpa using hltop1)), List.set_set]
      rw [hst2] at h
      have hst2i : (st1.set op { sop with refCnt := sop.refCnt - 1, rc := subtractStat sop.rc s.rc.stat })[i]? = some s := by
        rw [get?_set_ne' (Ne.symm hiop), hst1, get?_set_ne' (Ne.symm hinp)]
        exact hi
      rw [hst2i] at h
      simp only [Option.some.injEq, Prod.mk.injEq] at h
      rw [← h.1]
      have hlti : i < st.length := list_get?_lt hi
      have hlen2 : (st1.set op { sop with refCnt := sop.refCnt - 1, rc := subtractStat sop.rc s.rc.stat }).length = st.length := by
        rw [hst1]
        simp
      refine ⟨?_, ?_, ?_, ?_⟩
      · rw [get?_set_ne' hinp, get?_set_ne' (Ne.symm hnpop), hst1]
        exact get?_set_self' (by simpa using hltnp)
      · rw [get?_set_ne' hiop]
        exact get?_set_self' (by simpa using hltop1)
      · exact get?_set_self' (by rw [hlen2]; exact hlti)
      · intro j hji hjnp hjop
        rw [get?_set_ne' (Ne.symm hji), get?_set_ne' (Ne.symm hjop), hst1,
          get?_set_ne' (Ne.symm hjnp)]
    · simp at h

/-- A record identity used by the rollback traces: re-installing the
original counters into a charged scope recovers the IncRef'd original. -/
theorem charged_restore (ssvc : Scope) (stat : ScopeStat) :
    ({ { ssvc with refCnt := ssvc.refCnt + 1, rc := addStat ssvc.rc stat } with
        rc := subtractStat (addStat ssvc.rc stat) stat } : Scope) =
      { ssvc with refCnt := ssvc.refCnt + 1 } := by
  rw [subtractStat_addStat]

theorem refCnt_cancel (ssvc : Scope) :
    ({ { ssvc with refCnt := ssvc.refCnt + 1 } with
        refCnt := ssvc.refCnt + 1 - 1 } : Scope) = ssvc := by
  cases ssvc
  simp

/-- The rollback of setService's per-service-peer failure path restores
the heap exactly. -/
theorem setServiceQ_restore {st : St} {stream : StreamScope} {svcIdx q sys : Nat}
    {pr : Nat} (hsvc : stream.svc = none) (hpr : stream.proto = some pr)
    (hne1 : q ≠ svcIdx) (hne2 : stream.scope ≠ svcIdx) (hne3 : stream.scope ≠ q) :
    ∀ st' stream' e, setService st stream svcIdx (some q) sys = some (st', stream', some e) →
      st' = st ∧ stream' = stream := by
  intro st' stream' e h
  unfold setService at h
  rw [hsvc, hpr] at h
  simp only at h
  rcases hg : (incRef st svcIdx)[stream.scope]? with _ | s
  · rw [hg] at h; cases h
  · rw [hg] at h
    simp only at h
    rcases hrfc1 : reserveForChildSt (incRef st svcIdx) svcIdx s.rc.stat with _ | p1
    · rw [hrfc1] at h; cases h
    · obtain ⟨st1, err1⟩ := p1
      rw [hrfc1] at h
      rcases err1 with _ | e1
      · simp only at h
        rcases hrfc2 : reserveForChildSt (incRef st1 q) q s.rc.stat with _ | p2
        · rw [hrfc2] at h; cases h
        · obtain ⟨st2, err2⟩ := p2
          rw [hrfc2] at h
          rcases err2 with _ | e2
          · simp only at h
            rcases hg3 : (decRef (releaseForChildSt st2 pr s.rc.stat) pr)[stream.scope]?
              with _ | s3
            · rw [hg3] at h; cases h
            · rw [hg3] at h
              simp at h
          · simp only [Option.some.injEq, Prod.mk.injEq] at h
            obtain ⟨h1, h2, -⟩ := h
            refine ⟨?_, h2.symm⟩
            rw [← h1]
            -- unpack the first successful reserve
            obtain ⟨s1, hs1, hsd1, hst1⟩ := reserveForChildSt_ok hrfc1
            rcases hsv : st[svcIdx]? with _ | ssvc
            · rw [incRef_none hsv, hsv] at hs1
              cases hs1
            · have h0 : incRef st svcIdx =
                  st.set svcIdx { ssvc with refCnt := ssvc.refCnt + 1 } := incRef_some hsv
              have hltsv : svcIdx < st.length := list_get?_lt hsv
              rw [h0, get?_set_self' (by simpa using hltsv)] at hs1
              have hs1eq : s1 = { ssvc with refCnt := ssvc.refCnt + 1 } := by
                injection hs1 with hh
                exact hh.symm
              subst hs1eq
              rw [h0, List.set_set] at hst1
              simp only at hst1
              have hsd : ssvc.done = false := by simpa using hsd1
              -- the failed second reserve left its heap unchanged
              have hst2 : st2 = incRef st1 q := reserveForChildSt_err hrfc2
              have hst1sv : st1[svcIdx]? =
                  some { ssvc with refCnt := ssvc.refCnt + 1, rc := addStat ssvc.rc s.rc.stat } := by
                rw [hst1]
                exact get?_set_self' (by simpa using hltsv)
              rcases hqv : st[q]? with _ | sq
              · have hq1 : st1[q]? = none := by
                  rw [hst1, get?_set_ne' (fun hh => hne1 hh.symm)]
                  exact hqv
                rw [hst2, incRef_none hq1]
                have hrel : releaseForChildSt st1 svcIdx s.rc.stat =
                    st1.set svcIdx { ssvc with refCnt := ssvc.refCnt + 1 } := by
                  rw [releaseForChildSt_live hst1sv (by simpa using hsd)]
                  rw [charged_restore]
                rw [hrel]
                have hltsv1 : svcIdx < st1.length := list_get?_lt hst1sv
                rw [decRef_some (get?_set_self' (by simpa using hltsv1))]
                rw [List.set_set, refCnt_cancel]
                have hback : st1.set svcIdx ssvc = st := by
                  rw [hst1, List.set_set]
                  exact list_set_id hsv
                rw [hback]
                exact decRef_none hqv
              · have hq1 : st1[q]? = some sq := by
                  rw [hst1, get?_set_ne' (fun hh => hne1 hh.symm)]
                  exact hqv
                have hltq1 : q < st1.length := list_get?_lt hq1
                rw [hst2, incRef_some hq1]
                have hsv2 : (st1.set q { sq with refCnt := sq.refCnt + 1 })[svcIdx]? =
                    some { ssvc with refCnt := ssvc.refCnt + 1, rc := addStat ssvc.rc s.rc.stat } := by
                  rw [get?_set_ne' hne1]
                  exact hst1sv
                have hrel : releaseForChildSt (st1.set q { sq with refCnt := sq.refCnt + 1 })
                    svcIdx s.rc.stat =
                    (st1.set q { sq with refCnt := sq.refCnt + 1 }).set svcIdx
                      { ssvc with refCnt := ssvc.refCnt + 1 } := by
                  rw [releaseForChildSt_live hsv2 (by simpa using hsd)]
                  rw [charged_restore]
                rw [hrel]
                have hltsv2 : svcIdx < (st1.set q { sq with refCnt := sq.refCnt + 1 }).length := by
                  simpa using list_get?_lt hst1sv
                rw [decRef_some (get?_set_self' (by simpa using hltsv2))]
                rw [List.set_set, refCnt_cancel]
                have hcomm : (st1.set q { sq with refCnt := sq.refCnt + 1 }).set svcIdx ssvc =
                    (st1.set svcIdx ssvc).set q { sq with refCnt := sq.refCnt + 1 } :=
                  List.set_comm _ _ st1 hne1
                rw [hcomm]
                have hback : st1.set svcIdx ssvc = st := by
                  rw [hst1, List.set_set]
                  exact list_set_id hsv
                rw [hback]
                have hltq : q < st.length := list_get?_lt hqv
                rw [decRef_some (get?_set_self' (by simpa using hltq))]
                rw [List.set_set, refCnt_cancel]
                exact list_set_id hqv
      · simp only [Option.some.injEq, Prod.mk.injEq] at h
        obtain ⟨h1, h2, -⟩ := h
        refine ⟨?_, h2.symm⟩
        rw [← h1, reserveForChildSt_err hrfc1]
        exact decRef_incRef st svcIdx

/-- A successful setService with a per-service-peer sub-scope: both the
service scope and the sub-scope are charged and IncRef'd, the protocol
scope is released and DecRef'd, the constraints become
[peer, peer-service, service, system], and nothing else changes. -/
theorem setServiceQ_ok {st : St} {stream : StreamScope} {svcIdx q sys pr : Nat}
    {st' : St} {stream' : StreamScope} {s ssvc sq spr : Scope}
    (hsvc : stream.svc = none) (hpr : stream.proto = some pr)
    (hs : st[stream.scope]? = some s) (hsv : st[svcIdx]? = some ssvc)
    (hq : st[q]? = some sq) (hp : st[pr]? = some spr) (hprd : spr.done = false)
    (hne1 : q ≠ svcIdx) (hne2 : stream.scope ≠ svcIdx) (hne3 : stream.scope ≠ q)
    (hne4 : stream.scope ≠ pr) (hne5 : pr ≠ svcIdx) (hne6 : pr ≠ q)
    (h : setService st stream svcIdx (some q) sys = some (st', stream', none)) :
    st'[svcIdx]? = some { ssvc with refCnt := ssvc.refCnt + 1, rc := addStat ssvc.rc s.rc.stat } ∧
    st'[q]? = some { sq with refCnt := sq.refCnt + 1, rc := addStat sq.rc s.rc.stat } ∧
    st'[pr]? = some { spr with refCnt := spr.refCnt - 1, rc := subtractStat spr.rc s.rc.stat } ∧
    st'[stream.scope]? = some { s with constraints := [stream.peerId, q, svcIdx, sys] } ∧
    (∀ j, j ≠ stream.scope → j ≠ svcIdx → j ≠ q → j ≠ pr → st'[j]? = st[j]?) ∧
    stream' = { stream with svc := some svcIdx } := by
  have h0 : incRef st svcIdx = st.set svcIdx { ssvc with refCnt := ssvc.refCnt + 1 } :=
    incRef_some hsv
  have hltsv : svcIdx < st.length := list_get?_lt hsv
  have hg : (incRef st svcIdx)[stream.scope]? = some s := by
    rw [h0, get?_set_ne' (Ne.symm hne2)]
    exact hs
  unfold setService at h
  rw [hsvc, hpr] at h
  simp only at h
  rw [hg] at h
  simp only at h
  rcases hrfc1 : reserveForChildSt (incRef st svcIdx) svcIdx s.rc.stat with _ | p1
  · rw [hrfc1] at h; cases h
  · obtain ⟨st1, err1⟩ := p1
    rw [hrfc1] at h
    rcases err1 with _ | e1
    · simp only at h
      obtain ⟨s1, hs1, hsd1, hst1⟩ := reserveForChildSt_ok hrfc1
      rw [h0, get?_set_self' (by simpa using hltsv)] at hs1
      have hs1eq : s1 = { ssvc with refCnt := ssvc.refCnt + 1 } := by
        injection hs1 with hh
        exact hh.symm
      subst hs1eq
      rw [h0, List.set_set] at hst1
      simp only at hst1
      have hq1 : st1[q]? = some sq := by
        rw [hst1, get?_set_ne' (fun hh => hne1 hh.symm)]
        exact hq
      have hltq1 : q < st1.length := list_get?_lt hq1
      have hq0 : incRef st1 q = st1.set q { sq with refCnt := sq.refCnt + 1 } :=
        incRef_some hq1
      rcases hrfc2 : reserveForChildSt (incRef st1 q) q s.rc.stat with _ | p2
      · rw [hrfc2] at h; cases h
      · obtain ⟨st2, err2⟩ := p2
        rw [hrfc2] at h
        rcases err2 with _ | e2
        · simp only at h
          obtain ⟨s2, hs2, hsd2, hst2⟩ := reserveForChildSt_ok hrfc2
          rw [hq0, get?_set_self' (by simpa using hltq1)] at hs2
          have hs2eq : s2 = { sq with refCnt := sq.refCnt + 1 } := by
            injection hs2 with hh
            exact hh.symm
          subst hs2eq
          rw [hq0, List.set_set] at hst2
          simp only at hst2
          -- st2 = st1.set q { sq with refCnt+1, rc := addStat sq.rc stat }
          have hpr2 : st2[pr]? = some spr := by
            rw [hst2, get?_set_ne' (fun hh => hne6 hh.symm), hst1,
              get?_set_ne' (fun hh => hne5 hh.symm)]
            exact hp
          have hltpr2 : pr < st2.length := list_get?_lt hpr2
          have hrel : releaseForChildSt st2 pr s.rc.stat =
              st2.set pr { spr with rc := subtractStat spr.rc s.rc.stat } :=
            releaseForChildSt_live hpr2 hprd
          have hst3 : decRef (releaseForChildSt st2 pr s.rc.stat) pr =
              st2.set pr { spr with refCnt := spr.refCnt - 1, rc := subtractStat spr.rc s.rc.stat } := by
            rw [hrel, decRef_some (get?_set_self' (by simpa using hltpr2)), List.set_set]
          rw [hst3] at h
          have hsc3 : (st2.set pr { spr with refCnt := spr.refCnt - 1, rc := subtractStat spr.rc s.rc.stat })[stream.scope]? = some s := by
            rw [get?_set_ne' (Ne.symm hne4), hst2, get?_set_ne' (Ne.symm hne3), hst1,
              get?_set_ne' (Ne.symm hne2)]
            exact hs
          rw [hsc3] at h
          simp only [Option.some.injEq, Prod.mk.injEq] at h
          obtain ⟨h1, h2, -⟩ := h
          rw [← h1]
          have hlts : stream.scope < st.length := list_get?_lt hs
          refine ⟨?_, ?_, ?_, ?_, ?_, by rw [hpr]; exact h2.symm⟩
          · rw [get?_set_ne' hne2, get?_set_ne' hne5, hst2,
              get?_set_ne' hne1, hst1]
            exact get?_set_self' (by simpa using hltsv)
          · rw [get?_set_ne' hne3, get?_set_ne' hne6, hst2]
            exact get?_set_self' (by simpa using hltq1)
          · rw [get?_set_ne' hne4]
            exact get?_set_self' (by simpa using hltpr2)
          · refine get?_set_self' ?_
            have hlen : (st2.set pr { spr with refCnt := spr.refCnt - 1, rc := subtractStat spr.rc s.rc.stat }).length = st.length := by
              rw [List.length_set, hst2, List.length_set, hst1, List.length_set]
            rw [hlen]
            exact hlts
          · intro j hjs hjsv hjq hjpr
            rw [get?_set_ne' (Ne.symm hjs), get?_set_ne' (Ne.symm hjpr), hst2,
              get?_set_ne' (Ne.symm hjq), hst1, get?_set_ne' (Ne.symm hjsv)]
        · simp at h
    · simp at h

/-- Counters of a freshly attached connection: 100 bytes and one
inbound connection, charged so far on the transient scope. -/
def c4Rc : Resources :=
  { newResources c2Limit with memory := 100, nconnsIn := 1 }

/-- The connection's resourceScope (index 0), constrained by transient
(2) and system (3). -/
def c4ConnS : Scope :=
  { mkDagScope c2Limit [2, 3] with rc := c4Rc }

/-- The peer scope (index 1), still empty. -/
def c4PeerS : Scope :=
  mkDagScope c2Limit []

/-- The transient scope (index 2), holding the connection's charges and
one reference. -/
def c4TransS : Scope :=
  { mkDagScope c2Limit [] with refCnt := 1, rc := c4Rc }

/-- Heap before SetPeer: conn scope, peer, transient, system. -/
def c4St : St :=
  [c4ConnS, c4PeerS, c4TransS, { mkDagScope c2Limit [] with rc := c4Rc }]

/-- Heap after a successful SetPeer: the peer now holds the charges and
a reference, the transient holds neither, and the conn scope's
constraints are [peer, system]. -/
def c4StAfter : St :=
  [{ c4ConnS with constraints := [1, 3] },
   { c4PeerS with refCnt := 1, rc := c4Rc },
   mkDagScope c2Limit [],
   { mkDagScope c2Limit [] with rc := c4Rc }]

/-- C4: re-parent atomicity.  A failed set_peer / set_protocol /
set_service leaves every scope's charges, every refCnt and the
constraints list exactly as before the call; a successful one moves the
scope's current stat onto the new parent chain (charging and IncRef'ing
the new parents), releases it from the parent left behind (transient
for set_peer / set_protocol, protocol for set_service, DecRef'd),
installs the new constraints list, and touches nothing else. -/
theorem c4_reparent_atomicity (st : St) (sys : Nat) :
    (∀ conn p transient st' conn' e,
      setPeer st conn p transient sys = some (st', conn', some e) →
      st' = st ∧ conn' = conn) ∧
    (∀ conn p transient st' conn' s sp strans,
      conn.peer = none →
      st[conn.scope]? = some s → st[p]? = some sp → st[transient]? = some strans →
      strans.done = false →
      conn.scope ≠ p → conn.scope ≠ transient → p ≠ transient →
      setPeer st conn p transient sys = some (st', conn', none) →
      st'[p]? = some { sp with refCnt := sp.refCnt + 1, rc := addStat sp.rc s.rc.stat } ∧
      st'[transient]? = some { strans with refCnt := strans.refCnt - 1, rc := subtractStat strans.rc s.rc.stat } ∧
      st'[conn.scope]? = some { s with constraints := [p, sys] } ∧
      (∀ j, j ≠ conn.scope → j ≠ p → j ≠ transient → st'[j]? = st[j]?) ∧
      conn' = { conn with peer := some p }) ∧
    (∀ stream pr transient st' stream' e,
      setProtocol st stream pr transient sys = some (st', stream', some e) →
      st' = st ∧ stream' = stream) ∧
    (∀ stream pr transient st' stream' s sp strans,
      stream.proto = none →
      st[stream.scope]? = some s → st[pr]? = some sp → st[transient]? = some strans →
      strans.done = false →
      stream.scope ≠ pr → stream.scope ≠ transient → pr ≠ transient →
      setProtocol st stream pr transient sys = some (st', stream', none) →
      st'[pr]? = some { sp with refCnt := sp.refCnt + 1, rc := addStat sp.rc s.rc.stat } ∧
      st'[transient]? = some { strans with refCnt := strans.refCnt - 1, rc := subtractStat strans.rc s.rc.stat } ∧
      st'[stream.scope]? = some { s with constraints := [stream.peerId, pr, sys] } ∧
      (∀ j, j ≠ stream.scope → j ≠ pr → j ≠ transient → st'[j]? = st[j]?) ∧
      stream' = { stream with proto := some pr }) ∧
    (∀ stream svcIdx st' stream' e,
      setService st stream svcIdx none sys = some (st', stream', some e) →
      st' = st ∧ stream' = stream) ∧
    (∀ stream svcIdx q pr st' stream' e,
      stream.svc = none → stream.proto = some pr →
      q ≠ svcIdx → stream.scope ≠ svcIdx → stream.scope ≠ q →
      setService st stream svcIdx (some q) sys = some (st', stream', some e) →
      st' = st ∧ stream' = stream) ∧
    (∀ stream svcIdx pr st' stream' s ssvc spr,
      stream.svc = none → stream.proto = some pr →
      st[stream.scope]? = some s → st[svcIdx]? = some ssvc → st[pr]? = some spr →
      spr.done = false →
      stream.scope ≠ svcIdx → stream.scope ≠ pr → svcIdx ≠ pr →
      setService st stream svcIdx none sys = some (st', stream', none) →
      st'[svcIdx]? = some { ssvc with refCnt := ssvc.refCnt + 1, rc := addStat ssvc.rc s.rc.stat } ∧
      st'[pr]? = some { spr with refCnt := spr.refCnt - 1, rc := subtractStat spr.rc s.rc.stat } ∧
      st'[stream.scope]? = some { s with constraints := [stream.peerId, svcIdx, sys] } ∧
      (∀ j, j ≠ stream.scope → j ≠ svcIdx → j ≠ pr → st'[j]? = st[j]?) ∧
      stream' = { stream with svc := some svcIdx }) ∧
    (∀ stream svcIdx q pr st' stream' s ssvc sq spr,
      stream.svc = none → stream.proto = some pr →
      st[stream.scope]? = some s → st[svcIdx]? = some ssvc → st[q]? = some sq →
      st[pr]? = some spr → spr.done = false →
      q ≠ svcIdx → stream.scope ≠ svcIdx → stream.scope ≠ q → stream.scope ≠ pr →
      pr ≠ svcIdx → pr ≠ q →
      setService st stream svcIdx (some q) sys = some (st', stream', none) →
      st'[svcIdx]? = some { ssvc with refCnt := ssvc.refCnt + 1, rc := addStat ssvc.rc s.rc.stat } ∧
      st'[q]? = some { sq with refCnt := sq.refCnt + 1, rc := addStat sq.rc s.rc.stat } ∧
      st'[pr]? = some { spr with refCnt := spr.refCnt - 1, rc := subtractStat spr.rc s.rc.stat } ∧
      st'[stream.scope]? = some { s with constraints := [stream.peerId, q, svcIdx, sys] } ∧
      (∀ j, j ≠ stream.scope → j ≠ svcIdx → j ≠ q → j ≠ pr → st'[j]? = st[j]?) ∧
      stream' = { stream with svc := some svcIdx }) := by
  refine ⟨?_, ?_, ?_, ?_, ?_, ?_, ?_, ?_⟩
  · intro conn p transient st' conn' e h
    unfold setPeer at h
    rcases hpe : conn.peer with _ | p0
    · rw [hpe] at h
      simp only at h
      rcases hre : reparent st conn.scope p transient [p, sys] with _ | pr0
      · rw [hre] at h; cases h
      · obtain ⟨st2, err⟩ := pr0
        rw [hre] at h
        rcases err with _ | e2
        · simp at h
        · simp only [Option.some.injEq, Prod.mk.injEq] at h
          exact ⟨h.1.symm ▸ reparent_err hre, h.2.1.symm⟩
    · rw [hpe] at h
      simp only [Option.some.injEq, Prod.mk.injEq] at h
      exact ⟨h.1.symm, h.2.1.symm⟩
  · intro conn p transient st' conn' s sp strans hpe hcs hp htr htrd hn1 hn2 hn3 h
    unfold setPeer at h
    rw [hpe] at h
    simp only at h
    rcases hre : reparent st conn.scope p transient [p, sys] with _ | pr0
    · rw [hre] at h; cases h
    · obtain ⟨st2, err⟩ := pr0
      rw [hre] at h
      rcases err with _ | e2
      · simp only [Option.some.injEq, Prod.mk.injEq] at h
        obtain ⟨h1, h2, -⟩ := h
        subst h1
        obtain ⟨g1, g2, g3, g4⟩ := reparent_ok hcs hp htr htrd hn1 hn2 hn3 hre
        exact ⟨g1, g2, g3, g4, h2.symm⟩
      · simp at h
  · intro stream pr transient st' stream' e h
    unfold setProtocol at h
    rcases hpe : stream.proto with _ | p0
    · rw [hpe] at h
      simp only at h
      rcases hre : reparent st stream.scope pr transient [stream.peerId, pr, sys]
        with _ | pr0
      · rw [hre] at h; cases h
      · obtain ⟨st2, err⟩ := pr0
        rw [hre] at h
        rcases err with _ | e2
        · simp at h
        · simp only [Option.some.injEq, Prod.mk.injEq] at h
          exact ⟨h.1.symm ▸ reparent_err hre, h.2.1.symm⟩
    · rw [hpe] at h
      simp only [Option.some.injEq, Prod.mk.injEq] at h
      exact ⟨h.1.symm, h.2.1.symm⟩
  · intro stream pr transient st' stream' s sp strans hpe hcs hp htr htrd hn1 hn2 hn3 h
    unfold setProtocol at h
    rw [hpe] at h
    simp only at h
    rcases hre : reparent st stream.scope pr transient [stream.peerId, pr, sys]
      with _ | pr0
    · rw [hre] at h; cases h
    · obtain ⟨st2, err⟩ := pr0
      rw [hre] at h
      rcases err with _ | e2
      · simp only [Option.some.injEq, Prod.mk.injEq] at h
        obtain ⟨h1, h2, -⟩ := h
        subst h1
        obtain ⟨g1, g2, g3, g4⟩ := reparent_ok hcs hp htr htrd hn1 hn2 hn3 hre
        exact ⟨g1, g2, g3, g4, h2.symm⟩
      · simp at h
  · intro stream svcIdx st' stream' e h
    unfold setService at h
    rcases hsv : stream.svc with _ | s0
    · rw [hsv] at h
      simp only at h
      rcases hprv : stream.proto with _ | pr
      · rw [hprv] at h
        simp only [Option.some.injEq, Prod.mk.injEq] at h
        exact ⟨h.1.symm, h.2.1.symm⟩
      · rw [hprv] at h
        simp only at h
        rcases hre : reparent st stream.scope svcIdx pr [stream.peerId, svcIdx, sys]
          with _ | pr0
        · rw [hre] at h; cases h
        · obtain ⟨st2, err⟩ := pr0
          rw [hre] at h
          rcases err with _ | e2
          · simp at h
          · simp only [Option.some.injEq, Prod.mk.injEq] at h
            exact ⟨h.1.symm ▸ reparent_err hre, h.2.1.symm⟩
    · rw [hsv] at h
      simp only [Option.some.injEq, Prod.mk.injEq] at h
      exact ⟨h.1.symm, h.2.1.symm⟩
  · intro stream svcIdx q pr st' stream' e hsv hprv hq1 hq2 hq3 h
    exact setServiceQ_restore hsv hprv hq1 hq2 hq3 st' stream' e h
  · intro stream svcIdx pr st' stream' s ssvc spr hsv hprv hcs hsvi hpri hprd hn1 hn2 hn3 h
    unfold setService at h
    rw [hsv, hprv] at h
    simp only at h
    rcases hre : reparent st stream.scope svcIdx pr [stream.peerId, svcIdx, sys]
      with _ | pr0
    · rw [hre] at h; cases h
    · obtain ⟨st2, err⟩ := pr0
      rw [hre] at h
      rcases err with _ | e2
      · simp only [Option.some.injEq, Prod.mk.injEq] at h
        obtain ⟨h1, h2, -⟩ := h
        subst h1
        obtain ⟨g1, g2, g3, g4⟩ := reparent_ok hcs hsvi hpri hprd hn1 hn2 hn3 hre
        refine ⟨g1, g2, g3, g4, ?_⟩
        rw [hprv]
        exact h2.symm
      · simp at h
  · intro stream svcIdx q pr st' stream' s ssvc sq spr hsv hprv hcs hsvi hqi hpri hprd
      hn1 hn2 hn3 hn4 hn5 hn6 h
    exact setServiceQ_ok hsv hprv hcs hsvi hqi hpri hprd hn1 hn2 hn3 hn4 hn5 hn6 h

/-- C4, witness: a concrete successful SetPeer on the four-scope heap —
the hypotheses hold and the charges move from the transient scope to the
peer scope exactly as the theorem states. -/
theorem c4_reparent_atomicity_witness :
    (({ scope := 0, peer := none } : ConnScope).peer = none ∧
      c4St[0]? = some c4ConnS ∧ c4St[1]? = some c4PeerS ∧ c4St[2]? = some c4TransS ∧
      c4TransS.done = false ∧ (0 : Nat) ≠ 1 ∧ (0 : Nat) ≠ 2 ∧ (1 : Nat) ≠ 2 ∧
      setPeer c4St { scope := 0, peer := none } 1 2 3 =
        some (c4StAfter, { scope := 0, peer := some 1 }, none)) ∧
    (c4StAfter[1]? = some { c4PeerS with refCnt := c4PeerS.refCnt + 1, rc := addStat c4PeerS.rc c4ConnS.rc.stat } ∧
      c4StAfter[2]? = some { c4TransS with refCnt := c4TransS.refCnt - 1, rc := subtractStat c4TransS.rc c4ConnS.rc.stat } ∧
      c4StAfter[0]? = some { c4ConnS with constraints := [1, 3] } ∧
      ({ scope := 0, peer := some 1 } : ConnScope) =
        { ({ scope := 0, peer := none } : ConnScope) with peer := some 1 }) := by
  refine ⟨⟨by decide, by decide, by decide, by decide, by decide, by decide, by decide,
    by decide, by decide⟩, ?_⟩
  obtain ⟨g1, g2, g3, -, g5⟩ :=
    (c4_reparent_atomicity c4St 3).2.1 { scope := 0, peer := none } 1 2 c4StAfter
      { scope := 0, peer := some 1 } c4ConnS c4PeerS c4TransS (by decide) (by decide)
      (by decide) (by decide) (by decide) (by decide) (by decide) (by decide) (by decide)
  exact ⟨g1, g2, g3, g5⟩

end Rcmgr
